import Mathlib

/-!
Verification of the summit declarative configuration engine (Go) against its
specification.  The Go sources are shallowly embedded below: pure functions
become Lean functions, maps become association lists iterated in insertion
order (Go map iteration order is unspecified; every theorem proved here is
insensitive to the iteration order), the command runner and the afero
filesystem become explicit parameters, and fallible code returns Except.
-/

namespace Summit

/-! ## String helpers mirroring the Go standard library -/

/-- The rune set trimmed by strings.TrimSpace (ASCII whitespace, NEL, NBSP;
the rare higher Zs code points are not modelled). -/
def isGoSpace (c : Char) : Bool :=
  c = ' ' || c = '\t' || c = '\n' || c = '\x0b' || c = '\x0c' || c = '\r' ||
  c.toNat = 0x85 || c.toNat = 0xa0

/-- strings.TrimSpace. -/
def goTrimSpace (s : String) : String :=
  String.mk (((s.toList.dropWhile isGoSpace).reverse.dropWhile isGoSpace).reverse)

/-- The splitting loop of strings.Split for a nonempty separator, on
character lists.  The fuel is the input length, which one step (always
consuming at least one character) never exhausts; the zero-fuel equation
is unreachable. -/
def splitCharsF (sep : List Char) : Nat → List Char → List Char → List (List Char)
  | _, [], acc => [acc.reverse]
  | 0, l, acc => [acc.reverse ++ l]
  | fuel + 1, c :: rest, acc =>
    if sep.isPrefixOf (c :: rest) then
      acc.reverse :: splitCharsF sep fuel ((c :: rest).drop sep.length) []
    else splitCharsF sep fuel rest (c :: acc)

/-- strings.Split (the callers below never pass an empty separator). -/
def goSplit (s sep : String) : List String :=
  if sep = "" then [s]
  else (splitCharsF sep.toList s.toList.length s.toList []).map
    (fun l => String.mk l)

/-- strings.HasPrefix, on character lists (byte and rune prefixes agree
for valid UTF-8 whole strings). -/
def goHasPre (s pre : String) : Bool :=
  pre.toList.isPrefixOf s.toList

/-- strings.HasSuffix. -/
def goHasSuf (s suf : String) : Bool :=
  suf.toList.isSuffixOf s.toList

/-- strings.Contains for a nonempty substring, via strings.Split. -/
def goContainsSub (s sub : String) : Bool :=
  (goSplit s sub).length != 1

/-- The first field of strings.SplitN(line, sep, 2) (the text before the
first occurrence of sep, or the whole string). -/
def firstField (line sep : String) : String :=
  (goSplit line sep).headD ""

/-! ## Go maps as association lists

A Go map[string]V is modelled as a list of key-value pairs with at most one
entry per key; insertion replaces in place or appends.  Iteration is in
insertion order (Go randomises it; no theorem below depends on the order). -/

/-- m[k] = v on a Go map. -/
def alInsert {β : Type} (m : List (String × β)) (k : String) (v : β) :
    List (String × β) :=
  if m.any (fun p => p.1 == k) then
    m.map (fun p => if p.1 = k then (k, v) else p)
  else m ++ [(k, v)]

/-- Map lookup. -/
def alLookup {β : Type} (m : List (String × β)) (k : String) : Option β :=
  (m.find? (fun p => p.1 == k)).map (fun p => p.2)

/-- Build a map from a list, keyed by key, later entries winning. -/
def mapOfBy {β : Type} (key : β → String) (l : List β) : List (String × β) :=
  l.foldl (fun m b => alInsert m (key b) b) []

/-- A Go map[string]struct\x7b\x7d used as a set, in insertion order. -/
def setInsert (l : List String) (s : String) : List String :=
  if s ∈ l then l else l ++ [s]

/-- Fold a list into a set, keeping first occurrences. -/
def setOfList (l : List String) : List String :=
  l.foldl setInsert []

/-! ### Association-list and set lemmas -/

section MapLemmas

variable {β : Type} {γ : Type}

theorem find?_replace_self (m : List (String × β)) (k : String) (v : β)
    (hany : m.any (fun p => p.1 == k)) :
    (m.map (fun p => if p.1 = k then (k, v) else p)).find?
      (fun p => p.1 == k) = some (k, v) := by
  induction m with
  | nil => simp at hany
  | cons p m ih =>
    simp only [List.any_cons, Bool.or_eq_true, beq_iff_eq] at hany
    by_cases hp : p.1 = k
    · simp [hp]
    · simp only [List.map_cons, if_neg hp, List.find?_cons]
      have hf : (p.1 == k) = false := by simp [hp]
      simp only [hf]
      apply ih
      rcases hany with h | h
      · exact absurd h hp
      · exact h

theorem find?_replace_ne (m : List (String × β)) (k k1 : String) (v : β)
    (hne : k1 ≠ k) :
    Option.map (fun p => p.2) ((m.map (fun p => if p.1 = k then (k, v) else p)).find?
      (fun p => p.1 == k1)) =
    Option.map (fun p => p.2) (m.find? (fun p => p.1 == k1)) := by
  induction m with
  | nil => simp
  | cons p m ih =>
    simp only [List.map_cons, List.find?_cons]
    by_cases hp : p.1 = k
    · have h1 : (k == k1) = false := by simp [Ne.symm hne]
      have h2 : (p.1 == k1) = false := by simp [hp, Ne.symm hne]
      simp only [if_pos hp, h1, h2]
      exact ih
    · simp only [if_neg hp]
      by_cases hq : p.1 = k1
      · simp [hq]
      · have h2 : (p.1 == k1) = false := by simp [hq]
        simp only [h2]
        exact ih

theorem alLookup_alInsert_self (m : List (String × β)) (k : String) (v : β) :
    alLookup (alInsert m k v) k = some v := by
  unfold alInsert alLookup
  split
  · rename_i hany
    rw [find?_replace_self m k v hany]
    simp
  · rw [List.find?_append]
    have hnone : m.find? (fun p => p.1 == k) = none := by
      rw [List.find?_eq_none]
      intro p hp
      rename_i hany
      simp only [List.any_eq_true, not_exists, not_and, Bool.not_eq_true] at hany
      simp [hany p hp]
    simp [hnone]

theorem alLookup_alInsert_ne (m : List (String × β)) (k k1 : String) (v : β)
    (hne : k1 ≠ k) : alLookup (alInsert m k v) k1 = alLookup m k1 := by
  unfold alInsert alLookup
  split
  · exact find?_replace_ne m k k1 v hne
  · rw [List.find?_append]
    have : (k == k1) = false := by simp [Ne.symm hne]
    simp [this]

theorem mapOfBy_lookup (key : β → String) (l : List β) (k : String) :
    alLookup (mapOfBy key l) k = l.reverse.find? (fun b => key b == k) := by
  unfold mapOfBy
  induction l using List.reverseRecOn with
  | nil => simp [alLookup]
  | append_singleton l b ih =>
    rw [List.foldl_append]
    simp only [List.foldl_cons, List.foldl_nil, List.reverse_append,
      List.reverse_cons, List.reverse_nil, List.nil_append, List.cons_append,
      List.find?_cons]
    by_cases hk : key b = k
    · have hb : (key b == k) = true := by simp [hk]
      rw [hb, ← hk]
      exact alLookup_alInsert_self _ _ _
    · have hb : (key b == k) = false := by simp [hk]
      rw [hb]
      rw [alLookup_alInsert_ne _ _ _ _ (fun h => hk h.symm)]
      simpa using ih

theorem mem_alInsert {m : List (String × β)} {k : String} {v : β}
    {p : String × β} (h : p ∈ alInsert m k v) : p ∈ m ∨ p = (k, v) := by
  unfold alInsert at h
  split at h
  · rw [List.mem_map] at h
    obtain ⟨q, hq, hqe⟩ := h
    by_cases hk : q.1 = k
    · simp only [if_pos hk] at hqe
      right
      exact hqe.symm
    · simp only [if_neg hk] at hqe
      left
      exact hqe ▸ hq
  · rw [List.mem_append] at h
    rcases h with h | h
    · exact Or.inl h
    · simp at h
      exact Or.inr (by simp [h])

theorem mem_mapOfBy {key : β → String} {l : List β} {k : String} {v : β}
    (h : (k, v) ∈ mapOfBy key l) : v ∈ l ∧ key v = k := by
  unfold mapOfBy at h
  suffices haux : ∀ (l : List β) (m : List (String × β)),
      (k, v) ∈ l.foldl (fun m b => alInsert m (key b) b) m →
      (k, v) ∈ m ∨ (v ∈ l ∧ key v = k) by
    rcases haux l [] h with h1 | h1
    · simp at h1
    · exact h1
  intro l
  induction l with
  | nil => intro m hm; exact Or.inl hm
  | cons b bl ih =>
    intro m hm
    simp only [List.foldl_cons] at hm
    rcases ih _ hm with h1 | h1
    · rcases mem_alInsert h1 with h2 | h2
      · exact Or.inl h2
      · right
        simp only [Prod.mk.injEq] at h2
        refine ⟨by simp [h2.2], by rw [h2.2, h2.1]⟩
    · right
      exact ⟨List.mem_cons_of_mem _ h1.1, h1.2⟩

theorem keys_alInsert (m : List (String × β)) (k : String) (v : β) :
    (alInsert m k v).map (fun p => p.1) = m.map (fun p => p.1) ∨
    (alInsert m k v).map (fun p => p.1) = m.map (fun p => p.1) ++ [k] := by
  unfold alInsert
  split
  · left
    rw [List.map_map]
    apply List.map_congr_left
    intro p _
    by_cases hp : p.1 = k <;> simp [hp]
  · right
    simp

theorem keysNodup_alInsert {m : List (String × β)} {k : String} {v : β}
    (h : m.Pairwise (fun a b => a.1 ≠ b.1)) :
    (alInsert m k v).Pairwise (fun a b => a.1 ≠ b.1) := by
  unfold alInsert
  split
  · refine List.Pairwise.map _ ?_ h
    intro a b hne
    show (if a.1 = k then (k, v) else a).1 ≠ (if b.1 = k then (k, v) else b).1
    by_cases h1 : a.1 = k <;> by_cases h2 : b.1 = k
    · rw [if_pos h1, if_pos h2]
      exact absurd (h1.trans h2.symm) hne
    · rw [if_pos h1, if_neg h2]
      exact fun heq => h2 heq.symm
    · rw [if_neg h1, if_pos h2]
      exact fun heq => h1 (by exact heq)
    · rw [if_neg h1, if_neg h2]
      exact hne
  · rename_i hany
    rw [List.pairwise_append]
    refine ⟨h, by simp, ?_⟩
    intro a ha b hb
    simp only [List.mem_singleton] at hb
    subst hb
    simp only [List.any_eq_true, not_exists, not_and, Bool.not_eq_true] at hany
    intro heq
    have := hany a ha
    simp [heq] at this

theorem keysNodup_mapOfBy (key : β → String) (l : List β) :
    (mapOfBy key l).Pairwise (fun a b => a.1 ≠ b.1) := by
  unfold mapOfBy
  suffices haux : ∀ (l : List β) (m : List (String × β)),
      m.Pairwise (fun a b => a.1 ≠ b.1) →
      (l.foldl (fun m b => alInsert m (key b) b) m).Pairwise
        (fun a b => a.1 ≠ b.1) by
    exact haux l [] (by simp)
  intro l
  induction l with
  | nil => intro m hm; exact hm
  | cons b bl ih =>
    intro m hm
    simp only [List.foldl_cons]
    exact ih _ (keysNodup_alInsert hm)

theorem alLookup_of_mem_nodup {m : List (String × β)} {k : String} {v : β}
    (hnd : m.Pairwise (fun a b => a.1 ≠ b.1)) (hmem : (k, v) ∈ m) :
    alLookup m k = some v := by
  induction m with
  | nil => simp at hmem
  | cons p m ih =>
    rw [List.pairwise_cons] at hnd
    rw [List.mem_cons] at hmem
    unfold alLookup
    rw [List.find?_cons]
    rcases hmem with h | h
    · subst h
      simp
    · have hpk : p.1 ≠ k := by
        intro heq
        exact hnd.1 _ h heq
      have : (p.1 == k) = false := by simp [hpk]
      rw [this]
      exact ih hnd.2 h

theorem alLookup_isSome_of_mem {m : List (String × β)} {k : String} {v : β}
    (hmem : (k, v) ∈ m) : (alLookup m k).isSome := by
  unfold alLookup
  have h1 : (m.find? (fun p => p.1 == k)).isSome :=
    List.find?_isSome.mpr ⟨(k, v), hmem, by simp⟩
  cases hf : m.find? (fun p => p.1 == k) with
  | none => rw [hf] at h1; simp at h1
  | some p => simp

theorem find?_map_congr (f : β → γ) (q : γ → Bool) :
    ∀ (l1 l2 : List β), l1.map f = l2.map f →
    Option.map f (l1.find? (fun a => q (f a))) =
      Option.map f (l2.find? (fun a => q (f a))) := by
  intro l1
  induction l1 with
  | nil =>
    intro l2 h
    have : l2 = [] := by
      cases l2 with
      | nil => rfl
      | cons b bl => simp at h
    subst this
    rfl
  | cons a al ih =>
    intro l2 h
    cases l2 with
    | nil => simp at h
    | cons b bl =>
      simp only [List.map_cons, List.cons.injEq] at h
      simp only [List.find?_cons]
      rw [h.1]
      cases hq : q (f b)
      · exact ih bl h.2
      · simp [h.1]

theorem mem_setInsert {l : List String} {s a : String} :
    a ∈ setInsert l s ↔ a ∈ l ∨ a = s := by
  unfold setInsert
  split
  · rename_i hs
    constructor
    · exact Or.inl
    · rintro (h | h)
      · exact h
      · exact h ▸ hs
  · simp

theorem mem_setOfList {l : List String} {a : String} :
    a ∈ setOfList l ↔ a ∈ l := by
  unfold setOfList
  suffices haux : ∀ (l acc : List String),
      a ∈ l.foldl setInsert acc ↔ a ∈ acc ∨ a ∈ l by
    rw [haux l []]
    simp
  intro l
  induction l with
  | nil => intro acc; simp
  | cons b bl ih =>
    intro acc
    simp only [List.foldl_cons]
    rw [ih (setInsert acc b)]
    rw [mem_setInsert]
    simp only [List.mem_cons]
    tauto

end MapLemmas

/-! ## Data model (pkg/model) -/

/-- model.FileOrigin. -/
inductive FileOrigin where
  | managed
  | userCreated
  | packageModified
  deriving DecidableEq, Repr

/-- model.UserPackageActionState. -/
inductive UserPackageActionState where
  | present
  | absent
  deriving DecidableEq, Repr

/-- model.PackageState. -/
structure PackageState where
  name : String
  deriving DecidableEq, Repr

/-- model.ServiceState. -/
structure ServiceState where
  name : String
  enabled : Bool
  runlevel : String
  deriving DecidableEq, Repr

/-- model.UserState (PrimaryGroup is current-state only). -/
structure UserState where
  name : String
  groups : List String
  primaryGroup : String
  deriving DecidableEq, Repr

/-- model.SystemConfigState. -/
structure SystemConfigState where
  path : String
  content : String
  mode : String
  owner : String
  group : String
  origin : FileOrigin
  deleted : Bool
  fileStatus : String
  originPackage : String
  deriving DecidableEq, Repr

/-- model.UserPackageState. -/
structure UserPackageState where
  user : String
  pipx : List String
  npm : List String
  deriving DecidableEq, Repr

/-- model.IgnoredConfig. -/
structure IgnoredConfig where
  path : String
  reason : String
  deriving DecidableEq, Repr

/-- model.SystemState. -/
structure SystemState where
  includes : List String
  packages : List PackageState
  services : List ServiceState
  users : List UserState
  configs : List SystemConfigState
  ignoredConfigs : List String
  userPackages : List UserPackageState
  deriving DecidableEq, Repr

/-- model.ValidationError (the Line field, never set by Validate, is elided). -/
structure ValidationError where
  field : String
  message : String
  deriving DecidableEq, Repr

/-- model.ValidRunlevels. -/
def validRunlevel (s : String) : Bool :=
  s ∈ ["boot", "default", "sysinit", "nonetwork", "shutdown"]

/-- model.isValidPackageName: no control characters. -/
def isValidPackageName (name : String) : Bool :=
  name.toList.all (fun r => !(r.toNat < 32 || r.toNat == 127))

/-- model.isValidUserName: lowercase letters, digits, hyphen, underscore. -/
def isValidUserName (name : String) : Bool :=
  name.toList.all (fun r =>
    decide (('a' ≤ r ∧ r ≤ 'z') ∨ ('0' ≤ r ∧ r ≤ '9') ∨ r = '-' ∨ r = '_'))

/-- model.isValidOctalMode: a 4-character string 0NNN with octal digits. -/
def isValidOctalMode (mode : String) : Bool :=
  match mode.toList with
  | '0' :: rest => rest.length == 3 && rest.all (fun r => decide ('0' ≤ r ∧ r ≤ '7'))
  | _ => false

/-- model.isIntrinsicIgnore: the intrinsic-ignore test used by validation.
Exact matches on four paths, prefix matches on two, suffix matches on two. -/
def isIntrinsicIgnore (path : String) : Bool :=
  (["/etc/passwd", "/etc/group", "/etc/shadow", "/etc/apk/world"].any
    (fun ig => path == ig)) ||
  (["/etc/apk/keys", "/etc/runlevels"].any (fun ig => goHasPre path ig)) ||
  goHasSuf path "-" || goHasSuf path ".bak"

/-! ### SystemState.Validate, section by section -/

/-- Validation of the includes list. -/
def validateIncludesErrs (includes : List String) : List ValidationError :=
  includes.enum.flatMap (fun p =>
    if goTrimSpace p.2 = "" then
      [⟨"includes[" ++ toString p.1 ++ "]", "include path cannot be empty"⟩]
    else [])

/-- Validation of the package list. -/
def validatePackagesErrs (packages : List PackageState) : List ValidationError :=
  packages.enum.flatMap (fun p =>
    (if goTrimSpace p.2.name = "" then
      [⟨"packages[" ++ toString p.1 ++ "].name", "package name cannot be empty"⟩]
    else []) ++
    (if !isValidPackageName p.2.name then
      [⟨"packages[" ++ toString p.1 ++ "].name",
        "package name contains invalid characters (only alphanumeric, hyphens, and dots allowed)"⟩]
    else []))

/-- Validation of the service list. -/
def validateServicesErrs (services : List ServiceState) : List ValidationError :=
  services.enum.flatMap (fun p =>
    (if goTrimSpace p.2.name = "" then
      [⟨"services[" ++ toString p.1 ++ "].name", "service name cannot be empty"⟩]
    else []) ++
    (if p.2.runlevel ≠ "" && !validRunlevel p.2.runlevel then
      [⟨"services[" ++ toString p.1 ++ "].runlevel",
        "invalid runlevel \x27" ++ p.2.runlevel ++
          "\x27, must be one of: boot, default, sysinit, nonetwork, shutdown"⟩]
    else []))

/-- Validation of the user list. -/
def validateUsersErrs (users : List UserState) : List ValidationError :=
  users.enum.flatMap (fun p =>
    (if goTrimSpace p.2.name = "" then
      [⟨"users[" ++ toString p.1 ++ "].name", "user name cannot be empty"⟩]
    else []) ++
    (if !isValidUserName p.2.name then
      [⟨"users[" ++ toString p.1 ++ "].name",
        "user name contains invalid characters (only lowercase letters, numbers, hyphens, and underscores allowed)"⟩]
    else []) ++
    p.2.groups.enum.flatMap (fun q =>
      if !isValidUserName q.2 then
        [⟨"users[" ++ toString p.1 ++ "].groups[" ++ toString q.1 ++ "]",
          "group name contains invalid characters"⟩]
      else []))

/-- Validation of the config list. -/
def validateConfigsErrs (configs : List SystemConfigState) : List ValidationError :=
  configs.enum.flatMap (fun p =>
    (if goTrimSpace p.2.path = "" then
      [⟨"configs[" ++ toString p.1 ++ "].path", "config path cannot be empty"⟩]
    else []) ++
    (if !(goHasPre p.2.path "/") then
      [⟨"configs[" ++ toString p.1 ++ "].path",
        "config path must be absolute (start with \x27/\x27)"⟩]
    else []) ++
    (if goContainsSub p.2.path ".." then
      [⟨"configs[" ++ toString p.1 ++ "].path", "config path cannot contain \x27..\x27"⟩]
    else []) ++
    (if isIntrinsicIgnore p.2.path then
      [⟨"configs[" ++ toString p.1 ++ "].path",
        "cannot manage intrinsically ignored file (security/safety reasons)"⟩]
    else []) ++
    (if p.2.mode ≠ "" && !isValidOctalMode p.2.mode then
      [⟨"configs[" ++ toString p.1 ++ "].mode",
        "mode must be a valid octal value like \x270755\x27 or \x270644\x27"⟩]
    else []) ++
    (if p.2.owner ≠ "" && !isValidUserName p.2.owner then
      [⟨"configs[" ++ toString p.1 ++ "].owner", "owner contains invalid characters"⟩]
    else []) ++
    (if p.2.group ≠ "" && !isValidUserName p.2.group then
      [⟨"configs[" ++ toString p.1 ++ "].group", "group contains invalid characters"⟩]
    else []))

/-- Validation of the user-package list against the user list. -/
def validateUserPackagesErrs (users : List UserState)
    (userPackages : List UserPackageState) : List ValidationError :=
  userPackages.enum.flatMap (fun p =>
    (if !(users.any (fun u => u.name == p.2.user)) then
      [⟨"user-packages[" ++ toString p.1 ++ "].user",
        "user \x27" ++ p.2.user ++ "\x27 not defined in users section"⟩]
    else []) ++
    p.2.pipx.enum.flatMap (fun q =>
      if !isValidPackageName q.2 then
        [⟨"user-packages[" ++ toString p.1 ++ "].pipx[" ++ toString q.1 ++ "]",
          "package name contains invalid characters"⟩]
      else []) ++
    p.2.npm.enum.flatMap (fun q =>
      if !isValidPackageName q.2 then
        [⟨"user-packages[" ++ toString p.1 ++ "].npm[" ++ toString q.1 ++ "]",
          "package name contains invalid characters"⟩]
      else []))

/-- model.SystemState.Validate. -/
def SystemState.Validate (s : SystemState) : List ValidationError :=
  validateIncludesErrs s.includes ++
  validatePackagesErrs s.packages ++
  validateServicesErrs s.services ++
  validateUsersErrs s.users ++
  validateConfigsErrs s.configs ++
  validateUserPackagesErrs s.users s.userPackages

/-! ## The glob matcher (pkg/diff MatchesGlob and Go path/filepath.Match)

filepath.Match is Go standard library; it is modelled from its documented
semantics: a star matches any run of non-separator characters, a question
mark one non-separator character, a backslash escapes, brackets are
character classes with optional leading caret and lo-hi ranges.  A
malformed pattern yields none; MatchesGlob discards the error, so none and
some false both come out as a non-match. -/

/-- One class element: a literal or escaped character that must be followed
by more class text (Go getEsc). -/
def getEsc : List Char → Option (Char × List Char)
  | [] => none
  | '-' :: _ => none
  | ']' :: _ => none
  | '\\' :: rest =>
    match rest with
    | [] => none
    | c :: rest2 => if rest2.isEmpty then none else some (c, rest2)
  | c :: rest => if rest.isEmpty then none else some (c, rest)

theorem getEsc_length {cs rest : List Char} {c : Char}
    (h : getEsc cs = some (c, rest)) : rest.length < cs.length := by
  rw [getEsc.eq_def] at h
  split at h
  · exact absurd h (by simp)
  · exact absurd h (by simp)
  · exact absurd h (by simp)
  · split at h
    · exact absurd h (by simp)
    · split at h
      · exact absurd h (by simp)
      · simp only [Option.some.injEq, Prod.mk.injEq] at h
        obtain ⟨h1, h2⟩ := h
        subst h2
        simp
        omega
  · split at h
    · exact absurd h (by simp)
    · simp only [Option.some.injEq, Prod.mk.injEq] at h
      obtain ⟨h1, h2⟩ := h
      subst h2
      simp

/-- The range list of a character class, after the optional caret
(the range-collecting loop of Go matchChunk). -/
def parseRanges : Nat → List Char → Nat → Option (List (Char × Char) × List Char)
  | 0, _, _ => none
  | fuel + 1, cs, nrange =>
    match cs, nrange with
    | ']' :: rest, _ + 1 => some ([], rest)
    | cs, nrange =>
      match getEsc cs with
      | none => none
      | some (lo, cs1) =>
        match cs1 with
        | '-' :: cs2 =>
          match getEsc cs2 with
          | none => none
          | some (hi, cs3) =>
            (parseRanges fuel cs3 (nrange + 1)).map (fun p => ((lo, hi) :: p.1, p.2))
        | _ =>
          (parseRanges fuel cs1 (nrange + 1)).map (fun p => ((lo, lo) :: p.1, p.2))

theorem parseRanges_length {fuel nrange : Nat} {cs rest : List Char}
    {rs : List (Char × Char)}
    (h : parseRanges fuel cs nrange = some (rs, rest)) :
    rest.length ≤ cs.length := by
  induction fuel, cs, nrange using parseRanges.induct generalizing rs rest with
  | case1 x y => simp [parseRanges] at h
  | case2 fuel r n =>
    simp [parseRanges] at h
    obtain ⟨h1, h2⟩ := h
    subst h2
    simp
  | case3 fuel cs nrange hne hesc =>
    rw [parseRanges] at h
    · rw [hesc] at h
      exact absurd h (by simp)
    · exact hne
  | case4 fuel cs nrange hne lo cs2 hesc2 hesc =>
    rw [parseRanges] at h
    · rw [hesc] at h
      simp [hesc2] at h
    · exact hne
  | case5 fuel cs nrange hne lo cs2 hi cs3 hesc2 hesc ih =>
    rw [parseRanges] at h
    · rw [hesc] at h
      simp only [hesc2, Option.map_eq_some'] at h
      obtain ⟨⟨r1, r2⟩, hp, heq⟩ := h
      simp only [Prod.mk.injEq] at heq
      obtain ⟨h1, h2⟩ := heq
      subst h2
      have l1 := ih hp
      have l2 := getEsc_length hesc2
      have l3 := getEsc_length hesc
      simp at l3 ⊢
      omega
    · exact hne
  | case6 fuel cs nrange hne lo cs1 hesc hnd ih =>
    rw [parseRanges] at h
    · simp only [hesc] at h
      rw [Option.map_eq_some'] at h
      obtain ⟨⟨r1, r2⟩, hp, heq⟩ := h
      simp only [Prod.mk.injEq] at heq
      obtain ⟨h1, h2⟩ := heq
      subst h2
      have l1 := ih hp
      have l3 := getEsc_length hesc
      omega
    · exact hne

/-- Go path/filepath.Match on character lists.  none models ErrBadPattern
(a syntactically invalid pattern); the caller treats it as false. -/
def matchGlob (p s : List Char) : Option Bool :=
  match p, s with
  | [], [] => some true
  | [], _ :: _ => some false
  | '*' :: ps, s =>
    match matchGlob ps s with
    | none => none
    | some true => some true
    | some false =>
      match s with
      | [] => some false
      | c :: s1 => if c = '/' then some false else matchGlob ('*' :: ps) s1
  | '?' :: _, [] => some false
  | '?' :: ps, c :: s1 => if c = '/' then some false else matchGlob ps s1
  | ['\\'], _ => none
  | '\\' :: c :: ps, [] => some false
  | '\\' :: c :: ps, d :: s1 => if d = c then matchGlob ps s1 else some false
  | '[' :: ps, s =>
    let neg := match ps with | '^' :: _ => true | _ => false
    let ps1 := match ps with | '^' :: rest => rest | _ => ps
    match hpr : parseRanges (ps1.length + 1) ps1 0 with
    | none => none
    | some (ranges, rest) =>
      match s with
      | [] => some false
      | c :: s1 =>
        if (ranges.any (fun q => decide (q.1 ≤ c ∧ c ≤ q.2))) != neg then
          matchGlob rest s1
        else some false
  | c :: ps, [] => some false
  | c :: ps, d :: s1 => if d = c then matchGlob ps s1 else some false
termination_by (p.length, s.length)
decreasing_by
  all_goals simp_wf
  all_goals try omega
  · rename_i hcs hne
    left
    have h1 : ps1.length ≤ ps.length := by
      simp only [ps1]
      split <;> simp
    have h2 := parseRanges_length hpr
    omega

/-- diff.MatchesGlob: recursive double-star support for a single interior
star pair, otherwise delegation to filepath.Match with errors discarded. -/
def MatchesGlob (pattern path : String) : Bool :=
  if goContainsSub pattern "**" then
    match goSplit pattern "**" with
    | [p1, p2] =>
      let p1t := if goHasSuf p1 "/*" then p1.dropRight 2
        else if goHasSuf p1 "*" then p1.dropRight 1 else p1
      let p2t := if goHasPre p2 "/*" then p2.drop 2
        else if goHasPre p2 "*" then p2.drop 1 else p2
      goHasPre path p1t && goHasSuf path p2t
    | _ => false
  else (matchGlob pattern.toList path.toList).getD false

/-! ## Action catalog (pkg/actions) as a closed sum -/

/-- The closed set of action kinds, each carrying its declared fields. -/
inductive Action where
  | packageInstall (name : String)
  | packageRemove (name : String)
  | serviceEnable (name runlevel : String)
  | serviceDisable (name runlevel : String)
  | userCreate (name : String)
  | userRemove (name : String)
  | groupCreate (name : String)
  | addUserToGroup (user group : String)
  | removeUserFromGroup (user group : String)
  | fileCreate (path content mode owner group : String)
  | fileUpdate (path newContent : String)
  | fileChmod (path mode : String)
  | fileChown (path owner group : String)
  | fileDelete (path : String)
  | fileRevert (path ownerPackage : String)
  | userPackage (user manager pkg : String) (state : UserPackageActionState)
  deriving DecidableEq, Repr

/-! ## Dependency validator (pkg/diff/validation.go) -/

/-- diff.validateUserPackageDependencies. -/
def validateUserPackageDependencies (desired : SystemState) : List String :=
  let pipxPackages := desired.userPackages.flatMap (fun up => up.pipx)
  let npmPackages := desired.userPackages.flatMap (fun up => up.npm)
  (if pipxPackages.length > 0 ∧ ¬ desired.packages.any (fun p => p.name == "pipx") then
    ["user packages require \x27pipx\x27 to be installed for packages: " ++
      String.intercalate ", " pipxPackages ++
      ". Add \x27pipx\x27 to the system packages list."]
  else []) ++
  (if npmPackages.length > 0 ∧ ¬ desired.packages.any (fun p => p.name == "npm") then
    ["user packages require \x27npm\x27 to be installed for packages: " ++
      String.intercalate ", " npmPackages ++
      ". Add \x27npm\x27 to the system packages list."]
  else [])

/-- diff.validateServiceDependencies. -/
def validateServiceDependencies (desired current : SystemState) : List String :=
  desired.services.flatMap (fun s =>
    if current.services.any (fun cs => cs.name == s.name) then []
    else ["service \x27" ++ s.name ++ "\x27 not found"])

/-- diff.validateUserDependencies. -/
def validateUserDependencies (desired current : SystemState) : List String :=
  desired.userPackages.flatMap (fun up =>
    if current.users.any (fun u => u.name == up.user) then []
    else ["user \x27" ++ up.user ++ "\x27 not found for user-packages"])

/-- diff.ValidateDependencies, as the batched error list (empty = nil error). -/
def ValidateDependencies (desired current : SystemState) : List String :=
  validateUserPackageDependencies desired ++
  validateServiceDependencies desired current ++
  validateUserDependencies desired current

/-! ## Diff engine (pkg/diff) -/

/-- The runner interface as the diff engine uses it.  groupFile is the
result of sh -c cat /etc/group; listPackages user manager is the
manager list --json invocation run as that user, with the JSON decoding
(external library code) folded in: some gives the installed package names
the decode yields, none a failed command or a parse failure, which the
source logs as a warning and turns into no actions. -/
structure DiffEnv where
  groupFile : Except String String
  listPackages : String → String → Option (List String)

/-- diff.calculatePackageActions. -/
def calculatePackageActions (desired current : List PackageState) : List Action :=
  let desiredMap := mapOfBy (fun p => p.name) desired
  let currentMap := mapOfBy (fun p => p.name) current
  desiredMap.flatMap (fun p =>
    if (alLookup currentMap p.1).isNone then [Action.packageInstall p.1] else []) ++
  currentMap.flatMap (fun p =>
    if (alLookup desiredMap p.1).isNone then [Action.packageRemove p.1] else [])

/-- diff.calculateServiceActions. -/
def calculateServiceActions (desired current : List ServiceState) : List Action :=
  let desiredMap := mapOfBy (fun s => s.name) desired
  let currentMap := mapOfBy (fun s => s.name) current
  desiredMap.flatMap (fun p =>
    match alLookup currentMap p.1 with
    | some currentService =>
      if p.2.enabled ∧ ¬ currentService.enabled then
        [Action.serviceEnable p.1 p.2.runlevel]
      else if ¬ p.2.enabled ∧ currentService.enabled then
        [Action.serviceDisable p.1 currentService.runlevel]
      else []
    | none =>
      if p.2.enabled then [Action.serviceEnable p.1 p.2.runlevel] else []) ++
  currentMap.flatMap (fun p =>
    if (alLookup desiredMap p.1).isNone then
      if p.2.enabled then [Action.serviceDisable p.1 p.2.runlevel] else []
    else [])

/-- The line parse inside diff.inferCurrentSystemGroups: nonempty lines not
starting with a hash contribute their first colon-separated field. -/
def parseGroupNames (out : String) : List String :=
  (goSplit out "\n").foldl (fun acc line =>
    if line.length > 0 ∧ ¬ goHasPre line "#" then
      let name := firstField line ":"
      if name ≠ "" then setInsert acc name else acc
    else acc) []

/-- diff.inferCurrentSystemGroups. -/
def inferCurrentSystemGroups (env : DiffEnv) : Except String (List String) :=
  match env.groupFile with
  | .error e => .error ("failed to get current system groups: " ++ e)
  | .ok out => .ok (parseGroupNames out)

/-- diff.calculateUserActions. -/
def calculateUserActions (desired current : List UserState) (env : DiffEnv) :
    Except String (List Action) :=
  match inferCurrentSystemGroups env with
  | .error e => .error ("failed to infer current system groups: " ++ e)
  | .ok currentSystemGroups =>
    let requiredGroups := setOfList (desired.flatMap (fun u => u.groups))
    let created := requiredGroups.foldl
      (fun (acc : List Action × List String) g =>
        if g ∈ acc.2 then acc
        else (acc.1 ++ [Action.groupCreate g], acc.2 ++ [g]))
      ([], currentSystemGroups)
    let currentUsersMap := mapOfBy (fun u => u.name) current
    let perUser := desired.flatMap (fun du =>
      match alLookup currentUsersMap du.name with
      | none =>
        Action.userCreate du.name ::
          du.groups.map (fun g => Action.addUserToGroup du.name g)
      | some cu =>
        let desiredGroups := setOfList du.groups
        let currentGroups := setOfList cu.groups
        (desiredGroups.filter (fun g => g ∉ currentGroups)).map
          (fun g => Action.addUserToGroup du.name g) ++
        (currentGroups.filter (fun g => g ∉ desiredGroups ∧ g ≠ cu.primaryGroup)).map
          (fun g => Action.removeUserFromGroup du.name g))
    let desiredMap := mapOfBy (fun u => u.name) desired
    let removes := currentUsersMap.flatMap (fun p =>
      if (alLookup desiredMap p.1).isNone then [Action.userRemove p.1] else [])
    .ok (created.1 ++ perUser ++ removes)

/-- The ignore closure of diff.calculateConfigActions: any user pattern
matches. -/
def calcIsIgnored (ignoredConfigs : List String) (path : String) : Bool :=
  ignoredConfigs.any (fun pattern => MatchesGlob pattern path)

/-- diff.calculateConfigActions. -/
def calculateConfigActions (desired current : SystemState)
    (pruneUnmanaged : Bool) : List Action :=
  let isIgnored := calcIsIgnored desired.ignoredConfigs
  let desiredMap := mapOfBy (fun c => c.path)
    (desired.configs.filter (fun c => ¬ isIgnored c.path))
  let currentMap := mapOfBy (fun c => c.path)
    (current.configs.filter (fun c => ¬ isIgnored c.path))
  desiredMap.flatMap (fun p =>
    match alLookup currentMap p.1 with
    | some currentConfig =>
      (if p.2.content ≠ currentConfig.content then
        [Action.fileUpdate p.1 p.2.content] else []) ++
      (if p.2.mode ≠ "" ∧ p.2.mode ≠ currentConfig.mode then
        [Action.fileChmod p.1 p.2.mode] else []) ++
      (if (p.2.owner ≠ "" ∧ p.2.owner ≠ currentConfig.owner) ∨
          (p.2.group ≠ "" ∧ p.2.group ≠ currentConfig.group) then
        [Action.fileChown p.1 p.2.owner p.2.group] else [])
    | none =>
      [Action.fileCreate p.1 p.2.content p.2.mode p.2.owner p.2.group]) ++
  currentMap.flatMap (fun p =>
    if (alLookup desiredMap p.1).isNone then
      match p.2.origin with
      | .userCreated => if pruneUnmanaged then [Action.fileDelete p.1] else []
      | .packageModified => [Action.fileRevert p.1 p.2.originPackage]
      | .managed => []
    else [])

/-- diff.compareUserPackages (warnings on a failed listing yield no
actions). -/
def compareUserPackages (env : DiffEnv) (user manager : String)
    (desiredPackages : List String) : List Action :=
  match env.listPackages user manager with
  | none => []
  | some installedPackages =>
    let currentSet := setOfList installedPackages
    let desiredSet := setOfList desiredPackages
    (desiredSet.filter (fun pkg => pkg ∉ currentSet)).map
      (fun pkg => Action.userPackage user manager pkg .present) ++
    (currentSet.filter (fun pkg => pkg ∉ desiredSet)).map
      (fun pkg => Action.userPackage user manager pkg .absent)

/-- diff.calculateUserPackageActions. -/
def calculateUserPackageActions (desired : SystemState) (env : DiffEnv) :
    List Action :=
  desired.userPackages.flatMap (fun up =>
    (if up.pipx.length > 0 then compareUserPackages env up.user "pipx" up.pipx
     else []) ++
    (if up.npm.length > 0 then compareUserPackages env up.user "npm" up.npm
     else []))

/-- diff.CalculatePlan. -/
def CalculatePlan (desired current : SystemState) (env : DiffEnv)
    (pruneUnmanaged : Bool) : Except String (List Action) :=
  let depErrors := ValidateDependencies desired current
  if depErrors.isEmpty then
    match calculateUserActions desired.users current.users env with
    | .error e => .error e
    | .ok userActions =>
      .ok (calculatePackageActions desired.packages current.packages ++
        calculateServiceActions desired.services current.services ++
        userActions ++
        calculateConfigActions desired current pruneUnmanaged ++
        calculateUserPackageActions desired env)
  else
    .error ("dependency validation failed:\n  - " ++
      String.intercalate "\n  - " depErrors)

/-! ## Transactional executor (cmd/apply.go)

The executor is polymorphic over the Action interface; it is embedded over
an abstract action type.  applyOutcome i is the error the i-th plan
position's Apply returns on this run (none = success); rollbackOutcome a is
what a's Rollback returns.  The model returns the sequence of rollback
invocations (each with its outcome, which the source logs and discards)
together with the executor result. -/

section Executor

variable {α ε : Type}

/-- cmd.rollbackPlan: walk the completed list from the end, calling each
Rollback exactly once and ignoring its error after logging it. -/
def rollbackPlanModel (rollbackOutcome : α → Option ε) (completed : List α) :
    List (α × Option ε) :=
  completed.reverse.map (fun a => (a, rollbackOutcome a))

/-- The loop of cmd.executePlan, carrying the completed list and the plan
position. -/
def executePlanFrom (applyOutcome : Nat → Option ε)
    (rollbackOutcome : α → Option ε) :
    List α → Nat → List α → List (α × Option ε) × Option ε
  | _, _, [] => ([], none)
  | completed, i, a :: rest =>
    match applyOutcome i with
    | some e => (rollbackPlanModel rollbackOutcome completed, some e)
    | none => executePlanFrom applyOutcome rollbackOutcome
        (completed ++ [a]) (i + 1) rest

/-- cmd.executePlan. -/
def executePlanModel (applyOutcome : Nat → Option ε)
    (rollbackOutcome : α → Option ε) (plan : List α) :
    List (α × Option ε) × Option ε :=
  executePlanFrom applyOutcome rollbackOutcome [] 0 plan

end Executor

/-! ## The live command runner (pkg/system/exec.go) -/

/-- The process a runner invocation launches. -/
structure ProcessInvocation where
  program : String
  args : List String
  deriving DecidableEq, Repr

/-- system.LiveCommandRunner.Run builds exec.Command(sh, -c, command)
and returns its combined output; the user parameter appears in the
signature only. -/
def liveCommandRunnerRun (user command : String) : ProcessInvocation :=
  ⟨"sh", ["-c", command]⟩

/-! ## Action Apply guards (pkg/actions)

Each Apply is embedded as a function of its declared fields and the
runner, returning the commands it issued (as user-command pairs, in
order) and the resulting error.  None of these actions reads or writes
the filesystem abstraction in the source, so an empty command trace means
no effect at all. -/

/-- The runner as Apply uses it: CombinedOutput or an error. -/
def RunnerFn : Type := String → String → Except String String

/-- PackageInstallAction.Apply. -/
def packageInstallApply (name : String) (r : RunnerFn) :
    List (String × String) × Option String :=
  if goTrimSpace name = "" then ([], some "package name cannot be empty")
  else
    let cmd := "apk add " ++ name
    match r "" cmd with
    | .ok _ => ([("", cmd)], none)
    | .error e => ([("", cmd)], some e)

/-- PackageRemoveAction.Apply. -/
def packageRemoveApply (name : String) (r : RunnerFn) :
    List (String × String) × Option String :=
  if goTrimSpace name = "" then ([], some "package name cannot be empty")
  else
    let cmd := "apk del " ++ name
    match r "" cmd with
    | .ok _ => ([("", cmd)], none)
    | .error e => ([("", cmd)], some e)

/-- ServiceEnableAction.Apply. -/
def serviceEnableApply (name runlevel : String) (r : RunnerFn) :
    List (String × String) × Option String :=
  if goTrimSpace name = "" then ([], some "service name cannot be empty")
  else if goTrimSpace runlevel = "" then ([], some "runlevel cannot be empty")
  else
    let c1 := "rc-update add " ++ name ++ " " ++ runlevel
    match r "" c1 with
    | .error e => ([("", c1)], some e)
    | .ok _ =>
      let c2 := "rc-service " ++ name ++ " start"
      match r "" c2 with
      | .ok _ => ([("", c1), ("", c2)], none)
      | .error e => ([("", c1), ("", c2)], some e)

/-- ServiceDisableAction.Apply. -/
def serviceDisableApply (name runlevel : String) (r : RunnerFn) :
    List (String × String) × Option String :=
  if goTrimSpace name = "" then ([], some "service name cannot be empty")
  else if goTrimSpace runlevel = "" then ([], some "runlevel cannot be empty")
  else
    let c1 := "rc-service " ++ name ++ " stop"
    match r "" c1 with
    | .error e => ([("", c1)], some e)
    | .ok _ =>
      let c2 := "rc-update del " ++ name ++ " " ++ runlevel
      match r "" c2 with
      | .ok _ => ([("", c1), ("", c2)], none)
      | .error e => ([("", c1), ("", c2)], some e)

/-- UserCreateAction.Apply. -/
def userCreateApply (name : String) (r : RunnerFn) :
    List (String × String) × Option String :=
  if goTrimSpace name = "" then ([], some "username cannot be empty")
  else
    let cmd := "adduser -D " ++ name
    match r "" cmd with
    | .ok _ => ([("", cmd)], none)
    | .error e => ([("", cmd)], some e)

/-- UserRemoveAction.Apply. -/
def userRemoveApply (name : String) (r : RunnerFn) :
    List (String × String) × Option String :=
  if goTrimSpace name = "" then ([], some "username cannot be empty")
  else
    let cmd := "deluser " ++ name
    match r "" cmd with
    | .ok _ => ([("", cmd)], none)
    | .error e => ([("", cmd)], some e)

/-- GroupCreateAction.Apply. -/
def groupCreateApply (name : String) (r : RunnerFn) :
    List (String × String) × Option String :=
  if goTrimSpace name = "" then ([], some "group name cannot be empty")
  else
    let cmd := "addgroup " ++ name
    match r "" cmd with
    | .ok _ => ([("", cmd)], none)
    | .error e => ([("", cmd)], some e)

/-- AddUserToGroupAction.Apply. -/
def addUserToGroupApply (user group : String) (r : RunnerFn) :
    List (String × String) × Option String :=
  if goTrimSpace user = "" then ([], some "username cannot be empty")
  else if goTrimSpace group = "" then ([], some "group name cannot be empty")
  else
    let cmd := "addgroup " ++ user ++ " " ++ group
    match r "" cmd with
    | .ok _ => ([("", cmd)], none)
    | .error e => ([("", cmd)], some e)

/-- RemoveUserFromGroupAction.Apply. -/
def removeUserFromGroupApply (user group : String) (r : RunnerFn) :
    List (String × String) × Option String :=
  if goTrimSpace user = "" then ([], some "username cannot be empty")
  else if goTrimSpace group = "" then ([], some "group name cannot be empty")
  else
    let cmd := "delgroup " ++ user ++ " " ++ group
    match r "" cmd with
    | .ok _ => ([("", cmd)], none)
    | .error e => ([("", cmd)], some e)

/-- UserPackageAction.Apply.  The State field is a string in the source
(model.UserPackageActionState); the switch has a default error branch for
anything besides present and absent. -/
def userPackageApply (user manager pkg state : String) (r : RunnerFn) :
    List (String × String) × Option String :=
  if goTrimSpace user = "" then ([], some "user cannot be empty")
  else if goTrimSpace manager = "" then ([], some "manager cannot be empty")
  else if goTrimSpace pkg = "" then ([], some "package cannot be empty")
  else if state = "present" then
    let cmd := manager ++ " install " ++ pkg
    match r user cmd with
    | .ok _ => ([(user, cmd)], none)
    | .error e => ([(user, cmd)], some e)
  else if state = "absent" then
    let cmd := manager ++ " uninstall " ++ pkg
    match r user cmd with
    | .ok _ => ([(user, cmd)], none)
    | .error e => ([(user, cmd)], some e)
  else ([], some ("unknown user package state: " ++ state))

/-! ## Filesystem model for the file actions (afero MemMapFs as the tests
use it)

A file carries content, permission bits, and numeric owner and group.
WriteFile (O_WRONLY, O_CREATE, O_TRUNC) replaces the content of an
existing file and leaves its mode and ownership alone; the permission
argument is only used when the file is created.  Chown takes a -1
sentinel meaning keep the current side.  Rename moves the file data,
replacing any destination. -/

/-- One in-memory file. -/
structure MemFile where
  content : String
  mode : Nat
  uid : Nat
  gid : Nat
  deriving DecidableEq, Repr

/-- The filesystem: absolute path to file. -/
def Fs : Type := String → Option MemFile

/-- afero.WriteFile. -/
def fsWrite (fs : Fs) (path content : String) (perm : Nat) : Fs :=
  fun p => if p = path then
    match fs path with
    | some f => some { f with content := content }
    | none => some ⟨content, perm, 0, 0⟩
  else fs p

/-- Fs.Stat (also used for ReadFile, which reads the same entry). -/
def fsStat (fs : Fs) (path : String) : Except String MemFile :=
  match fs path with
  | some f => .ok f
  | none => .error ("stat " ++ path ++ ": file does not exist")

/-- Fs.Chmod. -/
def fsChmod (fs : Fs) (path : String) (mode : Nat) : Except String Fs :=
  match fs path with
  | none => .error ("chmod " ++ path ++ ": file does not exist")
  | some f => .ok (fun p => if p = path then some { f with mode := mode } else fs p)

/-- Fs.Chown with the -1 keep-current sentinel. -/
def fsChown (fs : Fs) (path : String) (uid gid : Int) : Except String Fs :=
  match fs path with
  | none => .error ("chown " ++ path ++ ": file does not exist")
  | some f => .ok (fun p => if p = path then
      some { f with uid := if uid = -1 then f.uid else uid.toNat,
                    gid := if gid = -1 then f.gid else gid.toNat }
    else fs p)

/-- Fs.Remove. -/
def fsRemove (fs : Fs) (path : String) : Except String Fs :=
  match fs path with
  | none => .error ("remove " ++ path ++ ": file does not exist")
  | some _ => .ok (fun p => if p = path then none else fs p)

/-- Fs.Rename. -/
def fsRename (fs : Fs) (src dst : String) : Except String Fs :=
  match fs src with
  | none => .error ("rename " ++ src ++ ": file does not exist")
  | some f => .ok (fun p =>
      if p = dst then some f else if p = src then none else fs p)

/-- strconv.ParseUint(s, 8, 32). -/
def parseOctal (s : String) : Option Nat :=
  if s ≠ "" ∧ s.toList.all (fun c => decide ('0' ≤ c ∧ c ≤ '7')) then
    let v := s.toList.foldl (fun acc c => acc * 8 + (c.toNat - 48)) 0
    if v < 2 ^ 32 then some v else none
  else none

/-- os/user lookups as the file actions use them. -/
structure UserDb where
  uidToName : Nat → Option String
  nameToUid : String → Option Nat
  gidToName : Nat → Option String
  nameToGid : String → Option Nat

/-! ### The six file actions (file actions in pkg/config sources) -/

/-- The owner and group resolution block shared by the chown-performing
actions: an empty name means the -1 keep-current sentinel, otherwise the
name must resolve through os/user. -/
def resolveChownIds (db : UserDb) (owner group : String) :
    Except String (Int × Int) := do
  let uid : Int ← if owner = "" then pure (-1) else
    match db.nameToUid owner with
    | none => Except.error ("unknown user " ++ owner)
    | some u => pure (Int.ofNat u)
  let gid : Int ← if group = "" then pure (-1) else
    match db.nameToGid group with
    | none => Except.error ("unknown group " ++ group)
    | some g => pure (Int.ofNat g)
  pure (uid, gid)

/-- FileCreateAction.Apply: write with 0644, chmod when a mode is given,
chown when an owner or group is given. -/
def fileCreateApply (path content modeStr owner group : String)
    (db : UserDb) (fs : Fs) : Except String Fs := do
  let fs1 := fsWrite fs path content 0o644
  let fs2 ← if modeStr = "" then pure fs1 else
    match parseOctal modeStr with
    | none => Except.error ("invalid mode " ++ modeStr)
    | some m => fsChmod fs1 path m
  if owner = "" ∧ group = "" then pure fs2 else do
    let ids ← resolveChownIds db owner group
    fsChown fs2 path ids.1 ids.2

/-- FileCreateAction.Rollback: remove the path. -/
def fileCreateRollback (path : String) (fs : Fs) : Except String Fs :=
  fsRemove fs path

/-- FileUpdateAction.Apply: stat for the original mode, read the original
content, overwrite preserving the mode.  Returns the captured
(origContent, origMode) and the new filesystem. -/
def fileUpdateApply (path newContent : String) (fs : Fs) :
    Except String ((String × Nat) × Fs) := do
  let info ← fsStat fs path
  pure ((info.content, info.mode), fsWrite fs path newContent info.mode)

/-- FileUpdateAction.Rollback: write the original content back with the
original mode. -/
def fileUpdateRollback (path : String) (cap : String × Nat) (fs : Fs) :
    Except String Fs :=
  .ok (fsWrite fs path cap.1 cap.2)

/-- What FileDeleteAction captures during Apply. -/
structure DeleteCapture where
  origContent : String
  origMode : Nat
  origOwner : String
  origGroup : String
  deriving DecidableEq, Repr

/-- FileDeleteAction.Apply: capture mode, owner and group names (name
lookups that fail leave the empty string), capture content, remove. -/
def fileDeleteApply (path : String) (db : UserDb) (fs : Fs) :
    Except String (DeleteCapture × Fs) := do
  let info ← fsStat fs path
  let origOwner := (db.uidToName info.uid).getD ""
  let origGroup := (db.gidToName info.gid).getD ""
  let fs1 ← fsRemove fs path
  pure (⟨info.content, info.mode, origOwner, origGroup⟩, fs1)

/-- FileDeleteAction.Rollback: restore content with the original mode, then
chown back to the original owner and group when they were captured. -/
def fileDeleteRollback (path : String) (cap : DeleteCapture) (db : UserDb)
    (fs : Fs) : Except String Fs := do
  let fs1 := fsWrite fs path cap.origContent cap.origMode
  if cap.origOwner = "" ∧ cap.origGroup = "" then pure fs1 else do
    let ids ← resolveChownIds db cap.origOwner cap.origGroup
    fsChown fs1 path ids.1 ids.2

/-- FileChmodAction.Apply: stat for the original mode, parse the requested
mode, chmod.  Returns the captured original mode. -/
def fileChmodApply (path modeStr : String) (fs : Fs) :
    Except String (Nat × Fs) := do
  let info ← fsStat fs path
  match parseOctal modeStr with
  | none => Except.error ("invalid mode " ++ modeStr)
  | some m => do
    let fs1 ← fsChmod fs path m
    pure (info.mode, fs1)

/-- FileChmodAction.Rollback: chmod back to the original mode. -/
def fileChmodRollback (path : String) (origMode : Nat) (fs : Fs) :
    Except String Fs :=
  fsChmod fs path origMode

/-- FileChownAction.Apply: capture the original owner and group names
(failed lookups leave the empty string), then chown to the requested
owner and group with the -1 sentinel for an unspecified side. -/
def fileChownApply (path owner group : String) (db : UserDb) (fs : Fs) :
    Except String ((String × String) × Fs) := do
  let info ← fsStat fs path
  let origOwner := (db.uidToName info.uid).getD ""
  let origGroup := (db.gidToName info.gid).getD ""
  let ids ← resolveChownIds db owner group
  let fs1 ← fsChown fs path ids.1 ids.2
  pure ((origOwner, origGroup), fs1)

/-- FileChownAction.Rollback: chown back to the captured names, -1 for a
side that was not captured. -/
def fileChownRollback (path : String) (cap : String × String) (db : UserDb)
    (fs : Fs) : Except String Fs := do
  let ids ← resolveChownIds db cap.1 cap.2
  fsChown fs path ids.1 ids.2

/-- The out-of-process pieces of FileRevertAction.Apply: the apk info
output, the result of the tar extraction, and the package file the
extraction produces (content and attributes of the packaged version). -/
structure RevertEnv where
  apkInfoOut : Except String String
  tarResult : Except String Unit
  pkgFile : MemFile

/-- FileRevertAction.Apply: read and keep the modified content, derive the
package version from apk info (split on the first hyphen), require the
cached archive, extract the packaged file into the scratch directory
(/tmp/summit-apk- is what afero TempDir yields in the tests), rename it
into place.  Returns the captured modified content. -/
def fileRevertApply (path ownerPackage : String) (env : RevertEnv) (fs : Fs) :
    Except String (String × Fs) := do
  let info ← fsStat fs path
  let modifiedContent := info.content
  let out ← match env.apkInfoOut with
    | .error e =>
      Except.error ("could not get package info for " ++ ownerPackage ++ ": " ++ e)
    | .ok out => pure out
  let version ← match goSplit out "-" with
    | [] => Except.error ("could not parse package version from: " ++ out)
    | [_] => Except.error ("could not parse package version from: " ++ out)
    | _ :: rest => pure (firstField (String.intercalate "-" rest) " ")
  let cachedApkPath :=
    "/var/cache/apk/" ++ ownerPackage ++ "-" ++ version ++ ".apk"
  let _ ← match fsStat fs cachedApkPath with
    | .error e => Except.error ("cached apk not found at " ++ cachedApkPath ++ ": " ++ e)
    | .ok f => pure f
  let tempDir := "/tmp/summit-apk-"
  let relPath := if goHasPre path "/" then path.drop 1 else path
  match env.tarResult with
  | .error e => Except.error ("could not extract file from package: " ++ e)
  | .ok _ => do
    let extractedFilePath := tempDir ++ "/" ++ relPath
    let fs1 : Fs := fun p =>
      if p = extractedFilePath then some env.pkgFile else fs p
    let fs2 ← fsRename fs1 extractedFilePath path
    pure (modifiedContent, fs2)

/-- FileRevertAction.Rollback: write the captured pre-revert content back
with mode 0644. -/
def fileRevertRollback (path modifiedContent : String) (fs : Fs) :
    Except String Fs :=
  .ok (fsWrite fs path modifiedContent 0o644)

/-! ### Apply-then-rollback compositions, observed at the action's path -/

/-- FileCreate round trip: the path's file after a successful apply and
rollback. -/
def fileCreateRoundTrip (path content modeStr owner group : String)
    (db : UserDb) (fs : Fs) : Option (Option MemFile) :=
  match fileCreateApply path content modeStr owner group db fs with
  | .error _ => none
  | .ok fs1 =>
    match fileCreateRollback path fs1 with
    | .error _ => none
    | .ok fs2 => some (fs2 path)

/-- FileUpdate round trip. -/
def fileUpdateRoundTrip (path newContent : String) (fs : Fs) :
    Option (Option MemFile) :=
  match fileUpdateApply path newContent fs with
  | .error _ => none
  | .ok (cap, fs1) =>
    match fileUpdateRollback path cap fs1 with
    | .error _ => none
    | .ok fs2 => some (fs2 path)

/-- FileDelete round trip. -/
def fileDeleteRoundTrip (path : String) (db : UserDb) (fs : Fs) :
    Option (Option MemFile) :=
  match fileDeleteApply path db fs with
  | .error _ => none
  | .ok (cap, fs1) =>
    match fileDeleteRollback path cap db fs1 with
    | .error _ => none
    | .ok fs2 => some (fs2 path)

/-- FileChmod round trip. -/
def fileChmodRoundTrip (path modeStr : String) (fs : Fs) :
    Option (Option MemFile) :=
  match fileChmodApply path modeStr fs with
  | .error _ => none
  | .ok (origMode, fs1) =>
    match fileChmodRollback path origMode fs1 with
    | .error _ => none
    | .ok fs2 => some (fs2 path)

/-- FileChown round trip. -/
def fileChownRoundTrip (path owner group : String) (db : UserDb) (fs : Fs) :
    Option (Option MemFile) :=
  match fileChownApply path owner group db fs with
  | .error _ => none
  | .ok (cap, fs1) =>
    match fileChownRollback path cap db fs1 with
    | .error _ => none
    | .ok fs2 => some (fs2 path)

/-- FileRevert round trip. -/
def fileRevertRoundTrip (path ownerPackage : String) (env : RevertEnv)
    (fs : Fs) : Option (Option MemFile) :=
  match fileRevertApply path ownerPackage env fs with
  | .error _ => none
  | .ok (cap, fs1) =>
    match fileRevertRollback path cap fs1 with
    | .error _ => none
    | .ok fs2 => some (fs2 path)

/-! ## State inference: config discovery from apk audit
(pkg/system listSystemConfigs)

The stat and ownership-resolution chain (syscall.Stat_t plus os/user
lookups with numeric fallback, and the 0NNN formatting of the permission
bits) is folded into the AuditEntry the filesystem parameter yields; the
getPackageOwners runner call and its is-owned-by line parse are folded
into the ownerMap parameter.  The FileOrigin zero value (an empty string
in the source, set for audit statuses other than A, U, X) is collapsed
into managed, which every consumer treats identically. -/

/-- What stat and the ownership lookups yield for a path. -/
structure AuditEntry where
  isDir : Bool
  content : String
  mode : String
  owner : String
  group : String
  deriving DecidableEq, Repr

/-- The ignoredPaths list inside listSystemConfigs, in source order; each
entry is tested by equality or prefix. -/
def auditIgnoredPaths : List String :=
  ["/etc/passwd", "/etc/group", "/etc/shadow", "/etc/apk/world",
   "/etc/apk/keys", "/etc/apk/arch",
   "/etc/apk/protected_paths.d/ca-certificates.list"]

/-- The intrinsic-suppression chain of listSystemConfigs for a path under
/etc, in source order: the runlevels prefix, the backup suffixes, then the
ignoredPaths list with equality-or-prefix matching.  some reason =
suppressed. -/
def intrinsicSuppressReason (filePath : String) : Option String :=
  if goHasPre filePath "/etc/runlevels" then some "intrinsic: runlevel files"
  else if goHasSuf filePath "-" || goHasSuf filePath ".bak" then
    some "intrinsic: backup file"
  else (auditIgnoredPaths.find?
    (fun ig => filePath == ig || goHasPre filePath ig)).map
    (fun ig => "intrinsic: " ++ ig)

/-- The accumulating state of the audit line loop. -/
structure AuditAcc where
  configs : List SystemConfigState
  ignored : List IgnoredConfig
  modifiedFiles : List String
  deriving Repr

/-- One iteration of the audit line loop. -/
def auditLineStep (skip : Bool) (fs : String → Option AuditEntry)
    (acc : AuditAcc) (rawLine : String) : Except String AuditAcc :=
  let line := goTrimSpace rawLine
  if line.length < 2 then .ok acc
  else
    let fileStatus := line.take 1
    let filePath0 := goTrimSpace (line.drop 1)
    let filePath := if goHasPre filePath0 "/" then filePath0
      else "/" ++ filePath0
    if ¬ goHasPre filePath "/etc" then .ok acc
    else
      match intrinsicSuppressReason filePath with
      | some reason =>
        .ok (if ¬ skip then
          { acc with ignored := acc.ignored ++ [⟨filePath, reason⟩] }
        else acc)
      | none =>
        let emit (entry : Option AuditEntry) : Except String AuditAcc :=
          let base : SystemConfigState :=
            ⟨filePath, "", "", "", "", .managed, false, "", ""⟩
          let cfg :=
            if fileStatus = "A" then { base with origin := .userCreated }
            else if fileStatus = "U" then { base with origin := .packageModified }
            else if fileStatus = "X" then { base with deleted := true }
            else base
          let mf := if fileStatus = "U" then acc.modifiedFiles ++ [filePath]
            else acc.modifiedFiles
          let _ := entry
          .ok { acc with configs := acc.configs ++ [cfg], modifiedFiles := mf }
        if fileStatus ≠ "X" then
          match fs filePath with
          | none => .error ("error stating file " ++ filePath)
          | some entry =>
            if entry.isDir then
              .ok (if ¬ skip then
                { acc with ignored :=
                    acc.ignored ++ [⟨filePath, "intrinsic: directory"⟩] }
              else acc)
            else emit (some entry)
        else emit none

/-- system.listSystemConfigs: run apk audit, classify each line, resolve
package owners for the modified files, then read content and attributes
for every non-deleted entry. -/
def listSystemConfigsModel (audit : Except String String) (skip : Bool)
    (fs : String → Option AuditEntry) (ownerMap : String → Option String) :
    Except String (List SystemConfigState × List IgnoredConfig) := do
  let output ← match audit with
    | .error e => Except.error ("error running apk audit: " ++ e)
    | .ok out => pure out
  let lines := goSplit output "\n"
  let acc ← lines.foldlM (auditLineStep skip fs) ⟨[], [], []⟩
  let configs := if acc.modifiedFiles.length > 0 then
      acc.configs.map (fun c =>
        match ownerMap c.path with
        | some owner => { c with originPackage := owner }
        | none => c)
    else acc.configs
  let configs ← configs.mapM (fun c =>
    if ¬ c.deleted then
      match fs c.path with
      | none => Except.error ("error reading file " ++ c.path)
      | some entry =>
        pure { c with content := entry.content, mode := entry.mode,
                      owner := entry.owner, group := entry.group }
    else pure c)
  pure (configs, acc.ignored)

/-! ## Config composer include processing (pkg/config LoadConfig and
processIncludesRecursive)

Only the include skeleton of a document matters for cycle detection:
loading a document and merging its entities cannot fail, so documents are
modelled by their include lists and an environment mapping absolute paths
to documents.  Include paths in the theorems below are absolute, for
which filepath.Abs is the identity; the relative branch of
resolveIncludePath joins against the including file's directory. -/

/-- A document, reduced to its include list. -/
structure IncDoc where
  includes : List String
  deriving DecidableEq, Repr

/-- How include loading fails. -/
inductive LoadErr where
  | circular (path : String)
  | loadFail (path : String)
  | fuel
  deriving DecidableEq, Repr

/-- config.resolveIncludePath: absolutes kept, relatives joined to the
including file's directory. -/
def resolveIncludePath (baseFile includePath : String) : String :=
  if goHasPre includePath "/" then includePath
  else
    let baseDir := String.intercalate "/" ((goSplit baseFile "/").dropLast)
    baseDir ++ "/" ++ includePath

/-- The include loop of processIncludesRecursive: the visited set is
threaded through (the Go map is shared by reference), and a nested load
recurses only when the included document itself has includes. -/
def procIncludeList (step : IncDoc → String → List String → Except LoadErr (List String))
    (env : String → Option IncDoc) (baseFile : String) :
    List String → List String → Except LoadErr (List String)
  | [], visited => .ok visited
  | includePath :: rest, visited =>
    let resolved := resolveIncludePath baseFile includePath
    match env resolved with
    | none => .error (.loadFail includePath)
    | some includedCfg =>
      match (if includedCfg.includes.isEmpty then .ok visited
             else step includedCfg resolved visited) with
      | .error e => .error e
      | .ok visited1 => procIncludeList step env baseFile rest visited1

/-- config.processIncludesRecursive, with fuel for the recursion depth
(the source recurses on the include graph directly). -/
def processIncludesRec (env : String → Option IncDoc) :
    Nat → IncDoc → String → List String → Except LoadErr (List String)
  | 0, _, _, _ => .error .fuel
  | fuel + 1, cfg, baseFile, visited =>
    if baseFile ∈ visited then .error (.circular baseFile)
    else procIncludeList (processIncludesRec env fuel) env baseFile
      cfg.includes (baseFile :: visited)

/-- config.LoadConfig restricted to include processing: load the root,
then process includes when there are any. -/
def loadWithIncludes (env : String → Option IncDoc) (fuel : Nat)
    (rootPath : String) : Except LoadErr Unit :=
  match env rootPath with
  | none => .error (.loadFail rootPath)
  | some cfg =>
    if cfg.includes.isEmpty then .ok ()
    else (processIncludesRec env fuel cfg rootPath []).map (fun _ => ())

/-! ## Small Except evaluation lemmas used when stepping through do
blocks -/

theorem except_bind_ok {α β ε : Type} (a : α) (f : α → Except ε β) :
    (Except.ok a >>= f) = f a := rfl

theorem except_bind_err {α β ε : Type} (e : ε) (f : α → Except ε β) :
    ((Except.error e : Except ε α) >>= f) = Except.error e := rfl

theorem except_pure_bind {α β ε : Type} (a : α) (f : α → Except ε β) :
    ((pure a : Except ε α) >>= f) = f a := rfl

/-! ## Claim theorems -/

/-- C9: the live command runner launches exactly the process sh -c command
for every user argument: the user parameter has no influence on the
invoked command, so per-user package operations are not actually run under
that user's identity by the live runner. -/
theorem c9_live_runner_ignores_user :
    ∀ u1 u2 command : String,
      liveCommandRunnerRun u1 command = liveCommandRunnerRun u2 command ∧
      liveCommandRunnerRun u1 command = ⟨"sh", ["-c", command]⟩ :=
  fun _ _ _ => ⟨rfl, rfl⟩

section ExecutorLemmas

variable {α ε : Type}

theorem executePlanFrom_ok (ao : Nat → Option ε) (ro : α → Option ε)
    (completed : List α) (i : Nat) (plan : List α)
    (h : ∀ j, j < plan.length → ao (i + j) = none) :
    executePlanFrom ao ro completed i plan = ([], none) := by
  induction plan generalizing completed i with
  | nil => rfl
  | cons a rest ih =>
    have h0 : ao i = none := by simpa using h 0 (by simp)
    simp only [executePlanFrom, h0]
    exact ih _ _ (fun j hj => by
      have h2 := h (j + 1) (by simpa using Nat.succ_lt_succ hj)
      rwa [show i + (j + 1) = i + 1 + j by omega] at h2)

theorem executePlanFrom_fail (ao : Nat → Option ε) (ro : α → Option ε)
    (completed : List α) (i k : Nat) (e : ε) (plan : List α)
    (hk : k < plan.length) (hpre : ∀ j, j < k → ao (i + j) = none)
    (hf : ao (i + k) = some e) :
    executePlanFrom ao ro completed i plan =
      (rollbackPlanModel ro (completed ++ plan.take k), some e) := by
  induction plan generalizing completed i k with
  | nil => simp at hk
  | cons a rest ih =>
    cases k with
    | zero =>
      have hf0 : ao i = some e := by simpa using hf
      simp [executePlanFrom, hf0]
    | succ k1 =>
      have h0 : ao i = none := by simpa using hpre 0 (Nat.succ_pos _)
      simp only [executePlanFrom, h0]
      have hrec := ih (completed ++ [a]) (i + 1) k1 (by simpa using hk)
        (fun j hj => by
          have h2 := hpre (j + 1) (by omega)
          rwa [show i + (j + 1) = i + 1 + j by omega] at h2)
        (by rwa [show i + (k1 + 1) = i + 1 + k1 by omega] at hf)
      rw [hrec]
      simp [List.append_assoc]

end ExecutorLemmas

/-- C1: when the first k applies of a plan succeed and the (k+1)th fails,
the executor rolls back exactly the k completed actions, in reverse order
of application, each exactly once; every rollback outcome is discarded
(the result holds for every rollback outcome assignment) and the executor
returns the original apply error.  When every apply succeeds no rollback
is called and the executor returns ok. -/
theorem c1_executor_transactional_rollback {α ε : Type}
    (plan : List α) (ao : Nat → Option ε) (ro : α → Option ε) :
    (∀ k e, k < plan.length →
      (∀ j, j < k → ao j = none) → ao k = some e →
      executePlanModel ao ro plan =
        ((plan.take k).reverse.map (fun a => (a, ro a)), some e)) ∧
    ((∀ j, j < plan.length → ao j = none) →
      executePlanModel ao ro plan = ([], none)) := by
  constructor
  · intro k e hk hpre hf
    have h := executePlanFrom_fail ao ro [] 0 k e plan hk
      (fun j hj => by simpa using hpre j hj) (by simpa using hf)
    simpa [executePlanModel, rollbackPlanModel] using h
  · intro h
    exact executePlanFrom_ok ao ro [] 0 plan (fun j hj => by simpa using h j hj)

/-- Witness for C1: a three-action plan whose third apply fails; the two
completed actions are rolled back in reverse order, the middle rollback
failure is recorded but the returned error is the apply error. -/
theorem c1_executor_transactional_rollback_witness :
    executePlanModel (fun i => if i = 2 then some "apk add vim failed" else none)
      (fun a => if a = 20 then some "rollback failed" else none)
      [10, 20, 30] =
      ([(20, some "rollback failed"), (10, none)], some "apk add vim failed") ∧
    executePlanModel (fun _ => (none : Option String))
      (fun (_ : Nat) => (none : Option String)) [10, 20, 30] = ([], none) := by
  constructor
  · have h := (c1_executor_transactional_rollback [10, 20, 30]
      (fun i => if i = 2 then some "apk add vim failed" else none)
      (fun a => if a = 20 then some "rollback failed" else none)).1 2
      "apk add vim failed" (by decide) (by decide) (by decide)
    exact h.trans (by decide)
  · exact (c1_executor_transactional_rollback [10, 20, 30] _ _).2
      (fun _ _ => rfl)

/-- C10: every runner-backed action's Apply with a required field empty or
all-whitespace (for services also an empty runlevel; for user packages an
empty user, manager or package, or an unknown state) returns an error
having issued no runner command (and none of these actions touches the
filesystem). -/
theorem c10_apply_empty_field_guards :
    (∀ r name, goTrimSpace name = "" →
      packageInstallApply name r = ([], some "package name cannot be empty")) ∧
    (∀ r name, goTrimSpace name = "" →
      packageRemoveApply name r = ([], some "package name cannot be empty")) ∧
    (∀ r name runlevel, goTrimSpace name = "" ∨ goTrimSpace runlevel = "" →
      (serviceEnableApply name runlevel r).1 = [] ∧
      (serviceEnableApply name runlevel r).2.isSome) ∧
    (∀ r name runlevel, goTrimSpace name = "" ∨ goTrimSpace runlevel = "" →
      (serviceDisableApply name runlevel r).1 = [] ∧
      (serviceDisableApply name runlevel r).2.isSome) ∧
    (∀ r name, goTrimSpace name = "" →
      userCreateApply name r = ([], some "username cannot be empty")) ∧
    (∀ r name, goTrimSpace name = "" →
      userRemoveApply name r = ([], some "username cannot be empty")) ∧
    (∀ r name, goTrimSpace name = "" →
      groupCreateApply name r = ([], some "group name cannot be empty")) ∧
    (∀ r user group, goTrimSpace user = "" ∨ goTrimSpace group = "" →
      (addUserToGroupApply user group r).1 = [] ∧
      (addUserToGroupApply user group r).2.isSome) ∧
    (∀ r user group, goTrimSpace user = "" ∨ goTrimSpace group = "" →
      (removeUserFromGroupApply user group r).1 = [] ∧
      (removeUserFromGroupApply user group r).2.isSome) ∧
    (∀ r user manager pkg state,
      goTrimSpace user = "" ∨ goTrimSpace manager = "" ∨
        goTrimSpace pkg = "" ∨ (state ≠ "present" ∧ state ≠ "absent") →
      (userPackageApply user manager pkg state r).1 = [] ∧
      (userPackageApply user manager pkg state r).2.isSome) := by
  refine ⟨?_, ?_, ?_, ?_, ?_, ?_, ?_, ?_, ?_, ?_⟩
  · intro r name h
    simp [packageInstallApply, h]
  · intro r name h
    simp [packageRemoveApply, h]
  · intro r name runlevel h
    unfold serviceEnableApply
    rcases h with h | h
    · simp [h]
    · by_cases hn : goTrimSpace name = "" <;> simp [hn, h]
  · intro r name runlevel h
    unfold serviceDisableApply
    rcases h with h | h
    · simp [h]
    · by_cases hn : goTrimSpace name = "" <;> simp [hn, h]
  · intro r name h
    simp [userCreateApply, h]
  · intro r name h
    simp [userRemoveApply, h]
  · intro r name h
    simp [groupCreateApply, h]
  · intro r user group h
    unfold addUserToGroupApply
    rcases h with h | h
    · simp [h]
    · by_cases hu : goTrimSpace user = "" <;> simp [hu, h]
  · intro r user group h
    unfold removeUserFromGroupApply
    rcases h with h | h
    · simp [h]
    · by_cases hu : goTrimSpace user = "" <;> simp [hu, h]
  · intro r user manager pkg state h
    unfold userPackageApply
    by_cases hu : goTrimSpace user = ""
    · simp [hu]
    · by_cases hm : goTrimSpace manager = ""
      · simp [hu, hm]
      · by_cases hp : goTrimSpace pkg = ""
        · simp [hu, hm, hp]
        · have hs : state ≠ "present" ∧ state ≠ "absent" := by tauto
          simp [hu, hm, hp, hs.1, hs.2]

/-- Witness for C10: each guard instantiated at whitespace fields with a
runner that would accept anything, showing the hypotheses satisfiable and
no command issued. -/
theorem c10_apply_empty_field_guards_witness :
    packageInstallApply " " (fun _ _ => .ok "") =
      ([], some "package name cannot be empty") ∧
    packageRemoveApply "" (fun _ _ => .ok "") =
      ([], some "package name cannot be empty") ∧
    (serviceEnableApply "sshd" " " (fun _ _ => .ok "")).1 = [] ∧
    (serviceDisableApply "\t" "default" (fun _ _ => .ok "")).1 = [] ∧
    userCreateApply "" (fun _ _ => .ok "") =
      ([], some "username cannot be empty") ∧
    userRemoveApply " " (fun _ _ => .ok "") =
      ([], some "username cannot be empty") ∧
    groupCreateApply "" (fun _ _ => .ok "") =
      ([], some "group name cannot be empty") ∧
    (addUserToGroupApply "alice" "" (fun _ _ => .ok "")).1 = [] ∧
    (removeUserFromGroupApply "" "wheel" (fun _ _ => .ok "")).1 = [] ∧
    (userPackageApply "alice" "pipx" "black" "installed" (fun _ _ => .ok "")).1 = [] := by
  have h := c10_apply_empty_field_guards
  obtain ⟨h1, h2, h3, h4, h5, h6, h7, h8, h9, h10⟩ := h
  refine ⟨h1 _ " " (by decide), h2 _ "" (by decide),
    (h3 _ "sshd" " " (Or.inr (by decide))).1,
    (h4 _ "\t" "default" (Or.inl (by decide))).1,
    h5 _ "" (by decide), h6 _ " " (by decide), h7 _ "" (by decide),
    (h8 _ "alice" "" (Or.inr (by decide))).1,
    (h9 _ "" "wheel" (Or.inl (by decide))).1,
    (h10 _ "alice" "pipx" "black" "installed"
      (Or.inr (Or.inr (Or.inr (by decide))))).1⟩

/-- C6 counterexample: the pattern **/foo has its double star at the
start, yet MatchesGlob matches it against /a/foo, contradicting the claim
that such a pattern matches no path. -/
theorem c6_leading_doublestar_counterexample :
    MatchesGlob ("**" ++ "/foo") "/a/foo" = true := by decide

/-- C6 (amended): a pattern containing more than one double star matches
no path; but a pattern whose single double star is at the very start is
treated as an empty prefix plus a suffix check: it matches exactly the
paths ending with the pattern's suffix part (after stripping a leading
slash-star or star), rather than matching nothing. -/
theorem c6_doublestar_matching :
    (∀ pattern path : String, 3 ≤ (goSplit pattern "**").length →
      MatchesGlob pattern path = false) ∧
    (∀ p2 path : String, goSplit ("**" ++ p2) "**" = ["", p2] →
      MatchesGlob ("**" ++ p2) path =
        goHasSuf path (if goHasPre p2 "/*" then p2.drop 2
          else if goHasPre p2 "*" then p2.drop 1 else p2)) := by
  constructor
  · intro pattern path h
    unfold MatchesGlob
    have hc : goContainsSub pattern "**" = true := by
      unfold goContainsSub
      simp only [bne_iff_ne, ne_eq, decide_eq_true_eq]
      omega
    simp only [hc, if_true]
    split
    · rename_i p1 p2 heq
      rw [heq] at h
      simp at h
    · rfl
  · intro p2 path heq
    unfold MatchesGlob
    have hc : goContainsSub ("**" ++ p2) "**" = true := by
      unfold goContainsSub
      rw [heq]
      simp
    simp only [hc, if_true, heq]
    have h1 : goHasSuf "" "/*" = false := by decide
    have h2 : goHasSuf "" "*" = false := by decide
    have h3 : goHasPre path "" = true := by
      simp [goHasPre, List.isPrefixOf_iff_prefix]
    simp [h1, h2, h3]

/-- C3 counterexample: a FileRevert on a file with mode 0600 whose apply
and rollback both succeed leaves the file with the extracted package
file's mode 0644, not the pre-apply mode: content is restored but the
mode is not. -/
theorem c3_revert_mode_counterexample :
    fileRevertRoundTrip "/etc/f" "testpkg"
      ⟨.ok "testpkg-1.0-r0 description:", .ok (), ⟨"pkg content", 0o644, 0, 0⟩⟩
      (fun p => if p = "/etc/f" then some ⟨"local content", 0o600, 0, 0⟩
        else if p = "/var/cache/apk/testpkg-1.0-r0.apk" then
          some ⟨"archive", 0o644, 0, 0⟩
        else none) =
      some (some ⟨"local content", 0o644, 0, 0⟩) ∧ (0o644 : Nat) ≠ 0o600 := by
  constructor
  · decide
  · decide
/-! Evaluation lemmas for the filesystem operations. -/

theorem fsStat_ok {fs : Fs} {path : String} {f : MemFile}
    (hfs : fs path = some f) : fsStat fs path = .ok f := by
  simp [fsStat, hfs]

theorem fsRemove_eq {fs : Fs} {path : String} {f : MemFile}
    (hfs : fs path = some f) :
    fsRemove fs path = .ok (fun p => if p = path then none else fs p) := by
  simp [fsRemove, hfs]

theorem fsWrite_at_existing {fs : Fs} {path : String} {f : MemFile}
    (hfs : fs path = some f) (c : String) (m : Nat) :
    (fsWrite fs path c m) path = some ⟨c, f.mode, f.uid, f.gid⟩ := by
  simp [fsWrite, hfs]

theorem fsWrite_at_missing {fs : Fs} {path : String}
    (hfs : fs path = none) (c : String) (m : Nat) :
    (fsWrite fs path c m) path = some ⟨c, m, 0, 0⟩ := by
  simp [fsWrite, hfs]

theorem fsChmod_ok {fs : Fs} {path : String} {f : MemFile}
    (hfs : fs path = some f) (m : Nat) :
    fsChmod fs path m =
      .ok (fun p => if p = path then some ⟨f.content, m, f.uid, f.gid⟩
        else fs p) := by
  simp [fsChmod, hfs]

theorem fsChown_ok {fs : Fs} {path : String} {f : MemFile}
    (hfs : fs path = some f) (u g : Int) :
    fsChown fs path u g =
      .ok (fun p => if p = path then
        some ⟨f.content, f.mode, if u = -1 then f.uid else u.toNat,
          if g = -1 then f.gid else g.toNat⟩
      else fs p) := by
  simp [fsChown, hfs]

theorem fsChown_ofNat {fs : Fs} {path : String} {f : MemFile}
    (hfs : fs path = some f) (u g : Nat) :
    fsChown fs path (Int.ofNat u) (Int.ofNat g) =
      .ok (fun p => if p = path then some ⟨f.content, f.mode, u, g⟩
        else fs p) := by
  rw [fsChown_ok hfs]
  have h1 : (Int.ofNat u) ≠ (-1 : Int) := by
    intro hc
    have h0 : (0 : Int) ≤ Int.ofNat u := Int.natCast_nonneg u
    omega
  have h2 : (Int.ofNat g) ≠ (-1 : Int) := by
    intro hc
    have h0 : (0 : Int) ≤ Int.ofNat g := Int.natCast_nonneg g
    omega
  simp [h1, h2]

theorem resolveChownIds_resolved {db : UserDb} {onm gn : String} {u g : Nat}
    (hon : onm ≠ "") (hgn : gn ≠ "")
    (hu : db.nameToUid onm = some u) (hg : db.nameToGid gn = some g) :
    resolveChownIds db onm gn = .ok (Int.ofNat u, Int.ofNat g) := by
  simp [resolveChownIds, hon, hgn, hu, hg, except_bind_ok]
  rfl

theorem fileRevertApply_ok_char {path ownerPackage : String}
    {env : RevertEnv} {fs : Fs} {f : MemFile} {cap : String} {fs2 : Fs}
    (hfs : fs path = some f)
    (h : fileRevertApply path ownerPackage env fs = .ok (cap, fs2)) :
    cap = f.content ∧ fs2 path = some env.pkgFile := by
  unfold fileRevertApply at h
  rw [fsStat_ok hfs] at h
  simp only [except_bind_ok] at h
  cases hinfo : env.apkInfoOut with
  | error e => simp [hinfo, except_bind_err] at h
  | ok out =>
    simp only [hinfo, except_bind_ok, except_pure_bind] at h
    split at h
    · simp [except_bind_err] at h
    · simp [except_bind_err] at h
    · rename_i p1 tl heq
      cases hcache : fsStat fs ("/var/cache/apk/" ++ ownerPackage ++ "-" ++
          firstField (String.intercalate "-" p1) " " ++ ".apk") with
      | error e =>
        simp only [hcache, except_bind_err] at h
        exact absurd h (by simp)
      | ok cf =>
        simp only [hcache, except_bind_ok, except_pure_bind] at h
        cases htar : env.tarResult with
        | error e => simp [htar] at h
        | ok u =>
          simp only [htar] at h
          rw [show fsRename (fun p =>
              if p = "/tmp/summit-apk-" ++ "/" ++
                (if goHasPre path "/" then path.drop 1 else path)
              then some env.pkgFile else fs p)
              ("/tmp/summit-apk-" ++ "/" ++
                (if goHasPre path "/" then path.drop 1 else path)) path =
            .ok (fun p => if p = path then some env.pkgFile
              else if p = "/tmp/summit-apk-" ++ "/" ++
                (if goHasPre path "/" then path.drop 1 else path) then none
              else (fun q => if q = "/tmp/summit-apk-" ++ "/" ++
                (if goHasPre path "/" then path.drop 1 else path)
                then some env.pkgFile else fs q) p) by
            unfold fsRename
            simp] at h
          simp only [except_bind_ok, except_pure_bind, pure, Except.pure,
            Except.ok.injEq, Prod.mk.injEq] at h
          obtain ⟨h1, h2⟩ := h
          refine ⟨h1.symm, ?_⟩
          rw [← h2]
          simp

/-- C3 (amended): for a file action whose apply succeeds and whose
rollback then succeeds, the file at the action\x27s path is fully restored
(content, mode, owner, group) for FileUpdate and FileChmod, and for
FileDelete and FileChown provided the ownership name lookups captured at
apply time succeed and invert; for FileCreate the path does not exist
afterwards.  FileRevert restores only the content: the mode and ownership
afterwards are those of the extracted package file, not the pre-apply
values. -/
theorem c3_file_action_roundtrips :
    (∀ path content modeStr owner group db fs r,
      fileCreateRoundTrip path content modeStr owner group db fs = some r →
      r = none) ∧
    (∀ path newContent fs r,
      fileUpdateRoundTrip path newContent fs = some r → r = fs path) ∧
    (∀ path db fs r f onm gn, fs path = some f →
      db.uidToName f.uid = some onm → onm ≠ "" →
      db.nameToUid onm = some f.uid →
      db.gidToName f.gid = some gn → gn ≠ "" →
      db.nameToGid gn = some f.gid →
      fileDeleteRoundTrip path db fs = some r → r = fs path) ∧
    (∀ path modeStr fs r,
      fileChmodRoundTrip path modeStr fs = some r → r = fs path) ∧
    (∀ path owner group db fs r f onm gn, fs path = some f →
      db.uidToName f.uid = some onm → onm ≠ "" →
      db.nameToUid onm = some f.uid →
      db.gidToName f.gid = some gn → gn ≠ "" →
      db.nameToGid gn = some f.gid →
      fileChownRoundTrip path owner group db fs = some r → r = fs path) ∧
    (∀ path ownerPackage env fs r f, fs path = some f →
      fileRevertRoundTrip path ownerPackage env fs = some r →
      r = some ⟨f.content, env.pkgFile.mode, env.pkgFile.uid, env.pkgFile.gid⟩) := by
  refine ⟨?_, ?_, ?_, ?_, ?_, ?_⟩
  · intro path content modeStr owner group db fs r h
    unfold fileCreateRoundTrip at h
    split at h
    · exact absurd h (by simp)
    · rename_i fs1 happ
      unfold fileCreateRollback fsRemove at h
      cases h1 : fs1 path with
      | none =>
        simp only [h1] at h
        exact absurd h (by simp)
      | some f1 =>
        simp only [h1, Option.some.injEq] at h
        rw [← h]
        simp
  · intro path newContent fs r h
    unfold fileUpdateRoundTrip fileUpdateApply fileUpdateRollback at h
    cases hfs : fs path with
    | none =>
      rw [show fsStat fs path = .error ("stat " ++ path ++ ": file does not exist")
        by simp [fsStat, hfs]] at h
      exact absurd h (by simp [except_bind_err])
    | some info =>
      rw [fsStat_ok hfs] at h
      simp only [except_bind_ok, pure, Except.pure, Option.some.injEq] at h
      rw [← h]
      have hin : (fsWrite fs path newContent info.mode) path =
          some ⟨newContent, info.mode, info.uid, info.gid⟩ :=
        fsWrite_at_existing hfs newContent info.mode
      rw [fsWrite_at_existing hin info.content info.mode]
  · intro path db fs r f onm gn hfs hu1 hu2 hu3 hg1 hg2 hg3 h
    unfold fileDeleteRoundTrip fileDeleteApply fileDeleteRollback at h
    rw [fsStat_ok hfs, fsRemove_eq hfs] at h
    simp only [except_bind_ok, hu1, hg1, Option.getD_some, pure, Except.pure] at h
    rw [if_neg (by simp [hu2])] at h
    rw [resolveChownIds_resolved hu2 hg2 hu3 hg3] at h
    simp only [except_bind_ok] at h
    have hw : (fsWrite (fun p => if p = path then none else fs p) path
        f.content f.mode) path = some ⟨f.content, f.mode, 0, 0⟩ :=
      fsWrite_at_missing (by simp) f.content f.mode
    rw [fsChown_ofNat hw] at h
    simp only [Option.some.injEq] at h
    rw [← h, hfs]
    simp
  · intro path modeStr fs r h
    unfold fileChmodRoundTrip fileChmodApply fileChmodRollback at h
    cases hfs : fs path with
    | none =>
      rw [show fsStat fs path = .error ("stat " ++ path ++ ": file does not exist")
        by simp [fsStat, hfs]] at h
      exact absurd h (by simp [except_bind_err])
    | some info =>
      rw [fsStat_ok hfs] at h
      simp only [except_bind_ok] at h
      cases hpo : parseOctal modeStr with
      | none => simp only [hpo] at h; exact absurd h (by simp)
      | some m =>
        simp only [hpo] at h
        rw [fsChmod_ok hfs m] at h
        simp only [except_bind_ok, pure, Except.pure] at h
        have hat : (fun p => if p = path then
            some (⟨info.content, m, info.uid, info.gid⟩ : MemFile)
          else fs p) path = some ⟨info.content, m, info.uid, info.gid⟩ := by simp
        rw [fsChmod_ok hat info.mode] at h
        simp only [Option.some.injEq] at h
        rw [← h, hfs]
        cases info
        simp
  · intro path owner group db fs r f onm gn hfs hu1 hu2 hu3 hg1 hg2 hg3 h
    unfold fileChownRoundTrip fileChownApply fileChownRollback at h
    rw [fsStat_ok hfs] at h
    simp only [except_bind_ok, hu1, hg1, Option.getD_some] at h
    cases hres : resolveChownIds db owner group with
    | error e =>
      rw [hres] at h
      exact absurd h (by simp [except_bind_err])
    | ok ids =>
      rw [hres] at h
      simp only [except_bind_ok] at h
      rw [fsChown_ok hfs ids.1 ids.2] at h
      simp only [except_bind_ok, pure, Except.pure] at h
      rw [resolveChownIds_resolved hu2 hg2 hu3 hg3] at h
      simp only [except_bind_ok] at h
      have hat : (fun p => if p = path then
          some (⟨f.content, f.mode, if ids.1 = -1 then f.uid else ids.1.toNat,
            if ids.2 = -1 then f.gid else ids.2.toNat⟩ : MemFile)
        else fs p) path = some ⟨f.content, f.mode,
          if ids.1 = -1 then f.uid else ids.1.toNat,
          if ids.2 = -1 then f.gid else ids.2.toNat⟩ := by simp
      rw [fsChown_ofNat hat] at h
      simp only [Option.some.injEq] at h
      rw [← h, hfs]
      simp
  · intro path ownerPackage env fs r f hfs h
    unfold fileRevertRoundTrip at h
    cases happ : fileRevertApply path ownerPackage env fs with
    | error e =>
      rw [happ] at h
      simp at h
    | ok p =>
      obtain ⟨cap, fs2⟩ := p
      obtain ⟨hcap, hfs2⟩ := fileRevertApply_ok_char hfs happ
      rw [happ] at h
      unfold fileRevertRollback at h
      simp only [Option.some.injEq] at h
      rw [← h]
      rw [fsWrite_at_existing hfs2 cap 0o644]
      rw [hcap]

/-- A concrete filesystem for exercising the file-action round trips. -/
def c3fs : Fs :=
  fun p => if p = "/etc/app.conf" then some ⟨"old", 0o600, 1000, 100⟩
    else if p = "/var/cache/apk/testpkg-1.0-r0.apk" then
      some ⟨"archive", 0o644, 0, 0⟩
    else none

/-- A concrete user database whose lookups invert. -/
def c3db : UserDb :=
  ⟨fun u => if u = 1000 then some "alice" else none,
   fun n => if n = "alice" then some 1000 else none,
   fun g => if g = 100 then some "users" else none,
   fun n => if n = "users" then some 100 else none⟩

/-- Witness for C3 at concrete actions on c3fs: each part of the round-trip
theorem applied with its hypotheses discharged by evaluation. -/
theorem c3_file_action_roundtrips_witness :
    ((none : Option MemFile) = none) ∧
    ((some ⟨"old", 0o600, 1000, 100⟩ : Option MemFile) = c3fs "/etc/app.conf") ∧
    ((some ⟨"old", 0o600, 1000, 100⟩ : Option MemFile) = c3fs "/etc/app.conf") ∧
    ((some ⟨"old", 0o600, 1000, 100⟩ : Option MemFile) = c3fs "/etc/app.conf") ∧
    ((some ⟨"old", 0o600, 1000, 100⟩ : Option MemFile) = c3fs "/etc/app.conf") ∧
    ((some ⟨"old", 0o644, 7, 8⟩ : Option MemFile) =
      some ⟨("old" : String), (0o644 : Nat), (7 : Nat), (8 : Nat)⟩) := by
  obtain ⟨h1, h2, h3, h4, h5, h6⟩ := c3_file_action_roundtrips
  refine ⟨h1 "/etc/new.conf" "hello" "0644" "alice" "users" c3db c3fs none
      (by decide), ?_, ?_, ?_, ?_, ?_⟩
  · exact h2 "/etc/app.conf" "new content" c3fs
      (some ⟨"old", 0o600, 1000, 100⟩) (by decide)
  · exact h3 "/etc/app.conf" c3db c3fs (some ⟨"old", 0o600, 1000, 100⟩)
      ⟨"old", 0o600, 1000, 100⟩ "alice" "users" (by decide) (by decide)
      (by decide) (by decide) (by decide) (by decide) (by decide) (by decide)
  · exact h4 "/etc/app.conf" "0755" c3fs (some ⟨"old", 0o600, 1000, 100⟩)
      (by decide)
  · exact h5 "/etc/app.conf" "alice" "users" c3db c3fs
      (some ⟨"old", 0o600, 1000, 100⟩) ⟨"old", 0o600, 1000, 100⟩ "alice"
      "users" (by decide) (by decide) (by decide) (by decide) (by decide)
      (by decide) (by decide) (by decide)
  · exact h6 "/etc/app.conf" "testpkg"
      ⟨.ok "testpkg-1.0-r0 description:", .ok (), ⟨"pkg", 0o644, 7, 8⟩⟩ c3fs
      (some ⟨"old", 0o644, 7, 8⟩) ⟨"old", 0o600, 1000, 100⟩ (by decide)
      (by decide)

/-- An acyclic include environment: the root lists the same document
twice, and that document itself has an include. -/
def c5envDup : String → Option IncDoc := fun p =>
  if p = "/r.yaml" then some ⟨["/a.yaml", "/a.yaml"]⟩
  else if p = "/a.yaml" then some ⟨["/b.yaml"]⟩
  else if p = "/b.yaml" then some ⟨[]⟩
  else none

/-- A two-document include cycle. -/
def c5envCycle : String → Option IncDoc := fun p =>
  if p = "/a.yaml" then some ⟨["/b.yaml"]⟩
  else if p = "/b.yaml" then some ⟨["/a.yaml"]⟩
  else none

/-- An acyclic linear include chain. -/
def c5envChain : String → Option IncDoc := fun p =>
  if p = "/r.yaml" then some ⟨["/a.yaml"]⟩
  else if p = "/a.yaml" then some ⟨["/b.yaml"]⟩
  else if p = "/b.yaml" then some ⟨[]⟩
  else none

/-- C5 counterexample: the include multigraph r to a (listed twice), a to
b is acyclic, yet loading r fails with the circular-include error, because
the visited set retains every document that entered recursive processing
and is never removed when processing finishes. -/
theorem c5_acyclic_circular_counterexample :
    loadWithIncludes c5envDup 10 "/r.yaml" = .error (.circular "/a.yaml") := by
  rfl

/-- C5 (amended): reaching a document whose absolute path is already in
the visited set fails with the circular error; a genuine include cycle is
therefore always detected; but the visited set only ever grows, so an
acyclic graph that reaches an include-bearing document a second time also
fails with the circular error, while acyclic graphs entering each
include-bearing document at most once load fine. -/
theorem c5_include_cycle_detection :
    (∀ env fuel cfg baseFile visited, baseFile ∈ visited →
      processIncludesRec env (fuel + 1) cfg baseFile visited =
        .error (.circular baseFile)) ∧
    loadWithIncludes c5envCycle 10 "/a.yaml" = .error (.circular "/a.yaml") ∧
    loadWithIncludes c5envDup 10 "/r.yaml" = .error (.circular "/a.yaml") ∧
    loadWithIncludes c5envChain 10 "/r.yaml" = .ok () := by
  refine ⟨?_, by rfl, by rfl, by rfl⟩
  intro env fuel cfg baseFile visited h
  simp [processIncludesRec, h]

/-- Witness for C5: the visited-set conjunct applied at a concrete
document already marked visited. -/
theorem c5_include_cycle_detection_witness :
    processIncludesRec c5envDup 6 ⟨["/x.yaml"]⟩ "/a.yaml" ["/a.yaml"] =
      .error (.circular "/a.yaml") :=
  c5_include_cycle_detection.1 c5envDup 5 ⟨["/x.yaml"]⟩ "/a.yaml"
    ["/a.yaml"] (by decide)

/-- The amended C8 suppression condition, stated from the claim's wording
with the four "exact" paths read as prefixes (which is what the source
tests): a path is suppressed exactly when it begins with one of the eight
listed paths or ends in a dash or .bak. -/
def c8SuppressedSpec (p : String) : Bool :=
  goHasPre p "/etc/passwd" || goHasPre p "/etc/group" ||
  goHasPre p "/etc/shadow" || goHasPre p "/etc/apk/world" ||
  goHasPre p "/etc/apk/keys" || goHasPre p "/etc/runlevels" ||
  goHasPre p "/etc/apk/arch" ||
  goHasPre p "/etc/apk/protected_paths.d/ca-certificates.list" ||
  goHasSuf p "-" || goHasSuf p ".bak"

theorem goHasPre_self (s : String) : goHasPre s s = true := by
  simp [goHasPre, List.isPrefixOf_iff_prefix]

theorem beq_or_goHasPre (p ig : String) :
    (p == ig || goHasPre p ig) = goHasPre p ig := by
  cases heq : p == ig with
  | true =>
    have : p = ig := by simpa using heq
    subst this
    simp [goHasPre_self]
  | false => simp

theorem auditLineStep_configs {skip : Bool} {fs : String → Option AuditEntry}
    {acc : AuditAcc} {line : String} {acc1 : AuditAcc}
    (h : auditLineStep skip fs acc line = .ok acc1) :
    ∀ c ∈ acc1.configs, c ∈ acc.configs ∨
      (goHasPre c.path "/etc" = true ∧
        intrinsicSuppressReason c.path = none) := by
  unfold auditLineStep at h
  dsimp only at h
  have main : ∀ (fp st : String) (acc1 : AuditAcc),
      (if (goTrimSpace line).length < 2 then Except.ok acc
        else if ¬goHasPre fp "/etc" = true then Except.ok acc
        else
          match intrinsicSuppressReason fp with
          | some reason =>
            Except.ok (if ¬skip = true then
              { configs := acc.configs,
                ignored := acc.ignored ++ [⟨fp, reason⟩],
                modifiedFiles := acc.modifiedFiles }
            else acc)
          | none =>
            if st ≠ "X" then
              match fs fp with
              | none => Except.error ("error stating file " ++ fp)
              | some entry =>
                if entry.isDir = true then
                  Except.ok (if ¬skip = true then
                    { configs := acc.configs,
                      ignored := acc.ignored ++ [⟨fp, "intrinsic: directory"⟩],
                      modifiedFiles := acc.modifiedFiles }
                  else acc)
                else
                  Except.ok
                    { configs := acc.configs ++
                        [if st = "A" then
                          ⟨fp, "", "", "", "", FileOrigin.userCreated, false, "", ""⟩
                        else if st = "U" then
                          ⟨fp, "", "", "", "", FileOrigin.packageModified, false, "", ""⟩
                        else if st = "X" then
                          ⟨fp, "", "", "", "", FileOrigin.managed, true, "", ""⟩
                        else ⟨fp, "", "", "", "", FileOrigin.managed, false, "", ""⟩],
                      ignored := acc.ignored,
                      modifiedFiles := if st = "U" then acc.modifiedFiles ++ [fp]
                        else acc.modifiedFiles }
            else
              Except.ok
                { configs := acc.configs ++
                    [if st = "A" then
                      ⟨fp, "", "", "", "", FileOrigin.userCreated, false, "", ""⟩
                    else if st = "U" then
                      ⟨fp, "", "", "", "", FileOrigin.packageModified, false, "", ""⟩
                    else if st = "X" then
                      ⟨fp, "", "", "", "", FileOrigin.managed, true, "", ""⟩
                    else ⟨fp, "", "", "", "", FileOrigin.managed, false, "", ""⟩],
                  ignored := acc.ignored,
                  modifiedFiles := if st = "U" then acc.modifiedFiles ++ [fp]
                    else acc.modifiedFiles }) = Except.ok acc1 →
      ∀ c ∈ acc1.configs, c ∈ acc.configs ∨
        (goHasPre c.path "/etc" = true ∧
          intrinsicSuppressReason c.path = none) := by
    intro fp st acc1 h
    split at h
    · simp only [Except.ok.injEq] at h
      subst h
      exact fun c hc => Or.inl hc
    · split at h
      · simp only [Except.ok.injEq] at h
        subst h
        exact fun c hc => Or.inl hc
      · rename_i hetc
        split at h
        · simp only [Except.ok.injEq] at h
          subst h
          intro c hc
          split at hc
          · exact Or.inl hc
          · exact Or.inl hc
        · rename_i hsup
          split at h
          · split at h
            · exact absurd h (by simp)
            · rename_i entry hentry
              split at h
              · simp only [Except.ok.injEq] at h
                subst h
                intro c hc
                split at hc
                · exact Or.inl hc
                · exact Or.inl hc
              · simp only [Except.ok.injEq] at h
                subst h
                intro c hc
                simp only [List.mem_append, List.mem_singleton] at hc
                rcases hc with hc | hc
                · exact Or.inl hc
                · right
                  have hpath : c.path = fp := by
                    rw [hc]
                    by_cases h1 : st = "A"
                    · rw [if_pos h1]
                    · rw [if_neg h1]
                      by_cases h2 : st = "U"
                      · rw [if_pos h2]
                      · rw [if_neg h2]
                  rw [hpath]
                  exact ⟨by simpa using hetc, hsup⟩
          · simp only [Except.ok.injEq] at h
            subst h
            intro c hc
            simp only [List.mem_append, List.mem_singleton] at hc
            rcases hc with hc | hc
            · exact Or.inl hc
            · right
              have hpath : c.path = fp := by
                rw [hc]
                by_cases h1 : st = "A"
                · rw [if_pos h1]
                · rw [if_neg h1]
                  by_cases h2 : st = "U"
                  · rw [if_pos h2]
                  · rw [if_neg h2]
                    by_cases h3 : st = "X"
                    · rw [if_pos h3]
                    · rw [if_neg h3]
              rw [hpath]
              exact ⟨by simpa using hetc, hsup⟩
  exact main _ _ acc1 h

theorem auditFold_configs {skip : Bool} {fs : String → Option AuditEntry} :
    ∀ (lines : List String) (acc acc1 : AuditAcc),
    lines.foldlM (auditLineStep skip fs) acc = .ok acc1 →
    ∀ c ∈ acc1.configs, c ∈ acc.configs ∨
      (goHasPre c.path "/etc" = true ∧
        intrinsicSuppressReason c.path = none) := by
  intro lines
  induction lines with
  | nil =>
    intro acc acc1 h
    simp only [List.foldlM_nil, pure, Except.pure, Except.ok.injEq] at h
    subst h
    exact fun c hc => Or.inl hc
  | cons l rest ih =>
    intro acc acc1 h
    simp only [List.foldlM_cons] at h
    cases hstep : auditLineStep skip fs acc l with
    | error e =>
      rw [hstep] at h
      exact absurd h (by simp [except_bind_err])
    | ok accm =>
      rw [hstep] at h
      rw [except_bind_ok] at h
      intro c hc
      rcases ih accm acc1 h c hc with h1 | h1
      · exact auditLineStep_configs hstep c h1
      · exact Or.inr h1

theorem mapM_path_preserved {f : SystemConfigState → Except String SystemConfigState}
    (hf : ∀ c c1, f c = .ok c1 → c1.path = c.path) :
    ∀ (l l1 : List SystemConfigState), l.mapM f = .ok l1 →
    ∀ c1 ∈ l1, ∃ c ∈ l, c1.path = c.path := by
  intro l
  induction l with
  | nil =>
    intro l1 h
    simp only [List.mapM_nil, pure, Except.pure, Except.ok.injEq] at h
    subst h
    simp
  | cons a rest ih =>
    intro l1 h
    simp only [List.mapM_cons] at h
    cases ha : f a with
    | error e =>
      rw [ha] at h
      exact absurd h (by simp [except_bind_err])
    | ok b =>
      rw [ha] at h
      rw [except_bind_ok] at h
      cases hrest : rest.mapM f with
      | error e =>
        rw [hrest] at h
        exact absurd h (by simp [except_bind_err])
      | ok bs =>
        rw [hrest] at h
        simp only [except_bind_ok, pure, Except.pure, Except.ok.injEq] at h
        subst h
        intro c1 hc1
        rcases List.mem_cons.mp hc1 with hc1 | hc1
        · subst hc1
          exact ⟨a, List.mem_cons_self a rest, hf a c1 ha⟩
        · obtain ⟨c, hc, hp⟩ := ih bs hrest c1 hc1
          exact ⟨c, List.mem_cons_of_mem a hc, hp⟩


/-- The suppression predicate stated by the amended claim: every
intrinsic-ignore entry, including the four the original claim calls
exact-match, matches by prefix (plus the two backup suffixes). -/
theorem intrinsicSuppressReason_isSome (p : String) :
    (intrinsicSuppressReason p).isSome = c8SuppressedSpec p := by
  rw [Bool.eq_iff_iff]
  unfold intrinsicSuppressReason
  by_cases h1 : goHasPre p "/etc/runlevels" = true
  · simp [h1, c8SuppressedSpec]
  · rw [if_neg (by simpa using h1)]
    by_cases h2 : (goHasSuf p "-" || goHasSuf p ".bak") = true
    · rw [if_pos (by simpa using h2)]
      simp only [Option.isSome_some, true_iff]
      simp only [Bool.or_eq_true] at h2
      simp [c8SuppressedSpec]
      tauto
    · rw [if_neg (by simpa using h2)]
      have h2a : goHasSuf p "-" = false := by
        revert h2; cases goHasSuf p "-" <;> simp
      have h2b : goHasSuf p ".bak" = false := by
        revert h2; cases goHasSuf p ".bak" <;> simp
      cases hf : auditIgnoredPaths.find? (fun ig => p == ig || goHasPre p ig) with
      | none =>
        rw [List.find?_eq_none] at hf
        have hof : ∀ ig ∈ auditIgnoredPaths, goHasPre p ig = false := by
          intro ig hig
          have hx := hf ig hig
          rw [beq_or_goHasPre] at hx
          simpa using hx
        have hc8 : ¬ (c8SuppressedSpec p = true) := by
          intro hc
          simp only [c8SuppressedSpec, Bool.or_eq_true] at hc
          rcases hc with ((((((((hc | hc) | hc) | hc) | hc) | hc) | hc) | hc) | hc) | hc
          · exact absurd hc (by simp [hof "/etc/passwd" (by simp [auditIgnoredPaths])])
          · exact absurd hc (by simp [hof "/etc/group" (by simp [auditIgnoredPaths])])
          · exact absurd hc (by simp [hof "/etc/shadow" (by simp [auditIgnoredPaths])])
          · exact absurd hc (by simp [hof "/etc/apk/world" (by simp [auditIgnoredPaths])])
          · exact absurd hc (by simp [hof "/etc/apk/keys" (by simp [auditIgnoredPaths])])
          · exact absurd hc h1
          · exact absurd hc (by simp [hof "/etc/apk/arch" (by simp [auditIgnoredPaths])])
          · exact absurd hc
              (by simp [hof "/etc/apk/protected_paths.d/ca-certificates.list"
                (by simp [auditIgnoredPaths])])
          · exact absurd hc (by simp [h2a])
          · exact absurd hc (by simp [h2b])
        simp [hc8]
      | some ig =>
        have hmem := List.mem_of_find?_eq_some hf
        have hpred := List.find?_some hf
        rw [beq_or_goHasPre] at hpred
        have hc8 : c8SuppressedSpec p = true := by
          simp only [auditIgnoredPaths, List.mem_cons, List.not_mem_nil, or_false] at hmem
          simp only [c8SuppressedSpec, Bool.or_eq_true]
          rcases hmem with h | h | h | h | h | h | h <;> subst h <;> tauto
        simp [hc8]

theorem listSystemConfigs_unsuppressed {audit : Except String String} {skip : Bool}
    {fs : String → Option AuditEntry} {ownerMap : String → Option String}
    {configs : List SystemConfigState} {ignored : List IgnoredConfig}
    (h : listSystemConfigsModel audit skip fs ownerMap = .ok (configs, ignored)) :
    ∀ c ∈ configs, goHasPre c.path "/etc" = true ∧
      intrinsicSuppressReason c.path = none := by
  unfold listSystemConfigsModel at h
  cases audit with
  | error e =>
    dsimp only at h
    exact absurd h (by simp [except_bind_err])
  | ok out =>
    have h2 : ((goSplit out "\n").foldlM (auditLineStep skip fs)
        (⟨[], [], []⟩ : AuditAcc) >>= fun acc =>
          (if acc.modifiedFiles.length > 0 then
              acc.configs.map (fun c =>
                match ownerMap c.path with
                | some owner => { c with originPackage := owner }
                | none => c)
            else acc.configs).mapM (fun c =>
              if ¬ c.deleted then
                match fs c.path with
                | none => Except.error ("error reading file " ++ c.path)
                | some entry =>
                  pure { c with content := entry.content, mode := entry.mode,
                                owner := entry.owner, group := entry.group }
              else pure c) >>= fun cs => pure (cs, acc.ignored)) =
        Except.ok (configs, ignored) := h
    clear h
    cases hfold : (goSplit out "\n").foldlM (auditLineStep skip fs)
        (⟨[], [], []⟩ : AuditAcc) with
    | error e =>
      rw [hfold] at h2
      exact absurd h2 (by simp [except_bind_err])
    | ok acc =>
      rw [hfold, except_bind_ok] at h2
      have hacc := auditFold_configs (goSplit out "\n") ⟨[], [], []⟩ acc hfold
      have hmid : ∀ c ∈ (if acc.modifiedFiles.length > 0 then
          acc.configs.map (fun c =>
            match ownerMap c.path with
            | some owner => { c with originPackage := owner }
            | none => c)
        else acc.configs), ∃ c0 ∈ acc.configs, c.path = c0.path := by
        split
        · intro c hc
          obtain ⟨c0, hc0, heq⟩ := List.mem_map.mp hc
          refine ⟨c0, hc0, ?_⟩
          rw [← heq]
          cases ownerMap c0.path <;> rfl
        · exact fun c hc => ⟨c, hc, rfl⟩
      cases hmap : (if acc.modifiedFiles.length > 0 then
          acc.configs.map (fun c =>
            match ownerMap c.path with
            | some owner => { c with originPackage := owner }
            | none => c)
        else acc.configs).mapM (fun c =>
          if ¬ c.deleted then
            match fs c.path with
            | none => Except.error ("error reading file " ++ c.path)
            | some entry =>
              pure { c with content := entry.content, mode := entry.mode,
                            owner := entry.owner, group := entry.group }
          else pure c) with
      | error e =>
        rw [hmap] at h2
        exact absurd h2 (by simp [except_bind_err])
      | ok cs =>
        rw [hmap, except_bind_ok] at h2
        simp only [pure, Except.pure, Except.ok.injEq, Prod.mk.injEq] at h2
        obtain ⟨hcs, hig⟩ := h2
        subst hcs
        intro c hc
        have hf : ∀ (c c1 : SystemConfigState),
            (if ¬ c.deleted then
              match fs c.path with
              | none => Except.error ("error reading file " ++ c.path)
              | some entry =>
                pure { c with content := entry.content, mode := entry.mode,
                              owner := entry.owner, group := entry.group }
            else pure c) = .ok c1 → c1.path = c.path := by
          intro c c1 hcc
          split at hcc
          · cases hfs : fs c.path with
            | none =>
              rw [hfs] at hcc
              exact absurd hcc (by simp)
            | some entry =>
              rw [hfs] at hcc
              simp only [pure, Except.pure, Except.ok.injEq] at hcc
              rw [← hcc]
          · simp only [pure, Except.pure, Except.ok.injEq] at hcc
            rw [← hcc]
        obtain ⟨c1, hc1, hp1⟩ := mapM_path_preserved hf _ _ hmap c hc
        obtain ⟨c0, hc0, hp0⟩ := hmid c1 hc1
        rcases hacc c0 hc0 with h0 | h0
        · exact absurd h0 (List.not_mem_nil c0)
        · rw [hp1, hp0]
          exact h0

/-- C8 counterexample to the original claim: /etc/groups, which merely has
the exact-match entry /etc/group as a proper prefix, IS suppressed by
listSystemConfigs — the code tests every ignoredPaths entry by equality OR
prefix — and an audit line for it yields no config and an IgnoredConfig
with reason "intrinsic: /etc/group". -/
theorem c8_proper_prefix_suppressed_counterexample :
    intrinsicSuppressReason "/etc/groups" = some "intrinsic: /etc/group" ∧
    listSystemConfigsModel (.ok "U /etc/groups") false (fun _ => none)
      (fun _ => none)
      = .ok ([], [⟨"/etc/groups", "intrinsic: /etc/group"⟩]) :=
  ⟨rfl, rfl⟩

/-- C8 (amended): during state inference a path is suppressed as an
intrinsic ignore exactly when it has one of the eight ignoredPaths entries
as a PREFIX (the four "exact" paths /etc/passwd, /etc/group, /etc/shadow,
/etc/apk/world included — they too match by prefix, so e.g. /etc/groups is
suppressed) or ends in "-" or ".bak"; and every config returned by
listSystemConfigs lies under /etc and is unsuppressed. -/
theorem c8_intrinsic_prefix_suppression :
    (∀ p, (intrinsicSuppressReason p).isSome = c8SuppressedSpec p) ∧
    (∀ (audit : Except String String) (skip : Bool)
        (fs : String → Option AuditEntry) (ownerMap : String → Option String)
        (configs : List SystemConfigState) (ignored : List IgnoredConfig),
      listSystemConfigsModel audit skip fs ownerMap = .ok (configs, ignored) →
      ∀ c ∈ configs, goHasPre c.path "/etc" = true ∧
        intrinsicSuppressReason c.path = none) :=
  ⟨intrinsicSuppressReason_isSome,
   fun _ _ _ _ _ _ h => listSystemConfigs_unsuppressed h⟩

/-- Witness for C8: the amended theorem applied at /etc/groups and at a
concrete audit that reports one modified file /etc/gshadow. -/
theorem c8_intrinsic_prefix_suppression_witness :
    ((intrinsicSuppressReason "/etc/groups").isSome
      = c8SuppressedSpec "/etc/groups") ∧
    (goHasPre "/etc/gshadow" "/etc" = true ∧
      intrinsicSuppressReason "/etc/gshadow" = none) :=
  ⟨c8_intrinsic_prefix_suppression.1 "/etc/groups",
   c8_intrinsic_prefix_suppression.2 (.ok "U /etc/gshadow") false
     (fun p => if p = "/etc/gshadow"
       then some ⟨false, "x", "0644", "root", "root"⟩ else none)
     (fun _ => none)
     [⟨"/etc/gshadow", "x", "0644", "root", "root",
       .packageModified, false, "", ""⟩]
     [] (by rfl) _ (List.mem_singleton.mpr rfl)⟩


/-! ## C2: intrinsic-ignore validation and the diff engine -/

/-- The file path an action operates on, if any: only the six config file
actions carry one. -/
def actionFilePath : Action → Option String
  | .fileCreate path _ _ _ _ => some path
  | .fileUpdate path _ => some path
  | .fileChmod path _ => some path
  | .fileChown path _ _ => some path
  | .fileDelete path => some path
  | .fileRevert path _ => some path
  | _ => none

theorem mem_ite_nil {α : Type} {a : α} {l : List α} {c : Prop} [Decidable c]
    (h : a ∈ if c then l else []) : a ∈ l := by
  split at h
  · exact h
  · exact absurd h (List.not_mem_nil a)

theorem packageActions_noFile {d c : List PackageState} :
    ∀ a ∈ calculatePackageActions d c, actionFilePath a = none := by
  intro a ha
  unfold calculatePackageActions at ha
  simp only [List.mem_append, List.mem_flatMap] at ha
  rcases ha with ⟨p, _, hp⟩ | ⟨p, _, hp⟩ <;>
  · have hp2 := mem_ite_nil hp
    simp only [List.mem_singleton] at hp2
    subst hp2
    rfl

theorem serviceActions_noFile {d c : List ServiceState} :
    ∀ a ∈ calculateServiceActions d c, actionFilePath a = none := by
  intro a ha
  unfold calculateServiceActions at ha
  simp only [List.mem_append, List.mem_flatMap] at ha
  rcases ha with ⟨p, _, hp⟩ | ⟨p, _, hp⟩
  · rcases hcu : alLookup (mapOfBy (fun s => s.name) c) p.1 with _ | cu <;>
      simp only [hcu] at hp
    · have hp2 := mem_ite_nil hp
      simp only [List.mem_singleton] at hp2
      subst hp2
      rfl
    · split at hp
      · simp only [List.mem_singleton] at hp
        subst hp
        rfl
      · split at hp
        · simp only [List.mem_singleton] at hp
          subst hp
          rfl
        · exact absurd hp (List.not_mem_nil a)
  · have hp2 := mem_ite_nil hp
    have hp3 := mem_ite_nil hp2
    simp only [List.mem_singleton] at hp3
    subst hp3
    rfl

theorem userActions_noFile {d c : List UserState} {env : DiffEnv}
    {l : List Action} (h : calculateUserActions d c env = .ok l) :
    ∀ a ∈ l, actionFilePath a = none := by
  unfold calculateUserActions at h
  cases hg : inferCurrentSystemGroups env with
  | error e =>
    rw [hg] at h
    exact absurd h (by simp)
  | ok currentSystemGroups =>
    simp only [hg] at h
    simp only [Except.ok.injEq] at h
    subst h
    intro a ha
    simp only [List.mem_append] at ha
    rcases ha with (ha | ha) | ha
    · revert ha
      have hcreated : ∀ (gs : List String) (acc : List Action × List String),
          (∀ b ∈ acc.1, actionFilePath b = none) →
          ∀ b ∈ (gs.foldl (fun (acc : List Action × List String) g =>
            if g ∈ acc.2 then acc
            else (acc.1 ++ [Action.groupCreate g], acc.2 ++ [g])) acc).1,
          actionFilePath b = none := by
        intro gs
        induction gs with
        | nil => exact fun acc hacc b hb => hacc b hb
        | cons g rest ih =>
          intro acc hacc b hb
          rw [List.foldl_cons] at hb
          refine ih _ ?_ b hb
          intro x hx
          split at hx
          · exact hacc x hx
          · rcases List.mem_append.mp hx with hx | hx
            · exact hacc x hx
            · simp only [List.mem_singleton] at hx
              subst hx
              rfl
      exact fun ha => hcreated _ _ (by intro b hb; exact absurd hb (List.not_mem_nil b)) a ha
    · rw [List.mem_flatMap] at ha
      obtain ⟨du, _, hbr⟩ := ha
      rcases hcu : alLookup (mapOfBy (fun u => u.name) c) du.name with _ | cu <;>
        simp only [hcu] at hbr
      · rcases List.mem_cons.mp hbr with hbr | hbr
        · subst hbr
          rfl
        · obtain ⟨g, _, hge⟩ := List.mem_map.mp hbr
          subst hge
          rfl
      · rcases List.mem_append.mp hbr with hbr | hbr <;>
        · obtain ⟨g, _, hge⟩ := List.mem_map.mp hbr
          subst hge
          rfl
    · rw [List.mem_flatMap] at ha
      obtain ⟨p, _, hp⟩ := ha
      have hp2 := mem_ite_nil hp
      simp only [List.mem_singleton] at hp2
      subst hp2
      rfl

theorem compareUserPackages_noFile {env : DiffEnv} {u m : String}
    {ps : List String} : ∀ a ∈ compareUserPackages env u m ps,
    actionFilePath a = none := by
  intro a ha
  unfold compareUserPackages at ha
  rcases hl : env.listPackages u m with _ | installed <;> simp only [hl] at ha
  · exact absurd ha (List.not_mem_nil a)
  · rcases List.mem_append.mp ha with ha | ha <;>
    · obtain ⟨g, _, hge⟩ := List.mem_map.mp ha
      subst hge
      rfl

theorem userPackageActions_noFile {d : SystemState} {env : DiffEnv} :
    ∀ a ∈ calculateUserPackageActions d env, actionFilePath a = none := by
  intro a ha
  unfold calculateUserPackageActions at ha
  rw [List.mem_flatMap] at ha
  obtain ⟨up, _, hup⟩ := ha
  rcases List.mem_append.mp hup with hup | hup <;>
    exact compareUserPackages_noFile a (mem_ite_nil hup)

theorem configActions_filePath {desired current : SystemState} {prune : Bool} :
    ∀ a ∈ calculateConfigActions desired current prune,
    ∃ p, actionFilePath a = some p ∧
      ((∃ c ∈ desired.configs, c.path = p) ∨
       (∃ c ∈ current.configs, c.path = p)) := by
  intro a ha
  unfold calculateConfigActions at ha
  simp only [List.mem_append, List.mem_flatMap] at ha
  rcases ha with ⟨p, hp, hbr⟩ | ⟨p, hp, hbr⟩
  · obtain ⟨k, v⟩ := p
    have hm := mem_mapOfBy hp
    have hv : v ∈ desired.configs := (List.mem_filter.mp hm.1).1
    refine ?_
    rcases hcu : alLookup (mapOfBy (fun c => c.path)
        (current.configs.filter (fun c =>
          ¬ calcIsIgnored desired.ignoredConfigs c.path))) k with _ | cc <;>
      simp only [hcu] at hbr
    · simp only [List.mem_singleton] at hbr
      subst hbr
      exact ⟨k, rfl, Or.inl ⟨v, hv, hm.2⟩⟩
    · rcases List.mem_append.mp hbr with hbr | hbr
      · rcases List.mem_append.mp hbr with hbr | hbr
        · have hb2 := mem_ite_nil hbr
          simp only [List.mem_singleton] at hb2
          subst hb2
          exact ⟨k, rfl, Or.inl ⟨v, hv, hm.2⟩⟩
        · have hb2 := mem_ite_nil hbr
          simp only [List.mem_singleton] at hb2
          subst hb2
          exact ⟨k, rfl, Or.inl ⟨v, hv, hm.2⟩⟩
      · have hb2 := mem_ite_nil hbr
        simp only [List.mem_singleton] at hb2
        subst hb2
        exact ⟨k, rfl, Or.inl ⟨v, hv, hm.2⟩⟩
  · obtain ⟨k, v⟩ := p
    have hm := mem_mapOfBy hp
    have hv : v ∈ current.configs := (List.mem_filter.mp hm.1).1
    have hbr2 := mem_ite_nil hbr
    rcases horig : v.origin with _ | _ | _ <;> simp only [horig] at hbr2
    · exact absurd hbr2 (List.not_mem_nil a)
    · have hb3 := mem_ite_nil hbr2
      simp only [List.mem_singleton] at hb3
      subst hb3
      exact ⟨k, rfl, Or.inr ⟨v, hv, hm.2⟩⟩
    · simp only [List.mem_singleton] at hbr2
      subst hbr2
      exact ⟨k, rfl, Or.inr ⟨v, hv, hm.2⟩⟩

theorem validateConfigsErrs_intrinsic {configs : List SystemConfigState}
    {i : Nat} {c : SystemConfigState} (hi : configs[i]? = some c)
    (hint : isIntrinsicIgnore c.path = true) :
    (⟨"configs[" ++ toString i ++ "].path",
      "cannot manage intrinsically ignored file (security/safety reasons)"⟩ :
      ValidationError) ∈ validateConfigsErrs configs := by
  unfold validateConfigsErrs
  rw [List.mem_flatMap]
  refine ⟨(i, c), List.mk_mem_enum_iff_getElem?.mpr hi, ?_⟩
  simp only [List.mem_append, hint]
  simp

theorem validate_nil_no_intrinsic {s : SystemState}
    (hv : SystemState.Validate s = []) :
    ∀ c ∈ s.configs, isIntrinsicIgnore c.path = false := by
  intro c hc
  by_contra hne
  rw [Bool.not_eq_false] at hne
  obtain ⟨i, hi⟩ := List.getElem?_of_mem hc
  have herr := validateConfigsErrs_intrinsic hi hne
  have hmem : (⟨"configs[" ++ toString i ++ "].path",
      "cannot manage intrinsically ignored file (security/safety reasons)"⟩ :
      ValidationError) ∈ SystemState.Validate s := by
    unfold SystemState.Validate
    simp only [List.mem_append]
    tauto
  rw [hv] at hmem
  exact absurd hmem (List.not_mem_nil _)


/-- Desired state holding a single config at /etc/apk/arch, a path the
spec's intrinsic-ignore list contains but model.isIntrinsicIgnore does
not test. -/
def c2archState : SystemState :=
  ⟨[], [], [], [],
   [⟨"/etc/apk/arch", "x86_64", "", "", "", .managed, false, "", ""⟩],
   [], []⟩

/-- The empty system state. -/
def c2emptyState : SystemState := ⟨[], [], [], [], [], [], []⟩

/-- A runner whose group file is empty and whose package listings fail. -/
def c2env : DiffEnv := ⟨.ok "", fun _ _ => none⟩

/-- C2 counterexample to the original claim: /etc/apk/arch is on the
claimed intrinsic-ignore list, yet model validation accepts a desired
config at that path and CalculatePlan generates a FileCreate action for
it — isIntrinsicIgnore checks neither /etc/apk/arch nor
/etc/apk/protected_paths.d/ca-certificates.list. -/
theorem c2_arch_unvalidated_counterexample :
    isIntrinsicIgnore "/etc/apk/arch" = false ∧
    SystemState.Validate c2archState = [] ∧
    CalculatePlan c2archState c2emptyState c2env false =
      .ok [Action.fileCreate "/etc/apk/arch" "x86_64" "" "" ""] :=
  ⟨rfl, rfl, rfl⟩

/-- C2 (amended): for every desired config whose path is in the
intrinsic-ignore set that validation actually tests (exact paths
/etc/passwd, /etc/group, /etc/shadow, /etc/apk/world; prefixes
/etc/apk/keys and /etc/runlevels; suffixes "-" and ".bak" — WITHOUT
/etc/apk/arch and /etc/apk/protected_paths.d/ca-certificates.list),
validation of the desired state reports the intrinsic-ignore error for
that config; and whenever the desired state validates cleanly and every
current config is off that set, no action CalculatePlan emits touches a
path in the set. -/
theorem c2_intrinsic_ignore_validation :
    (∀ (s : SystemState) (i : Nat) (c : SystemConfigState),
      s.configs[i]? = some c → isIntrinsicIgnore c.path = true →
      (⟨"configs[" ++ toString i ++ "].path",
        "cannot manage intrinsically ignored file (security/safety reasons)"⟩ :
        ValidationError) ∈ SystemState.Validate s) ∧
    (∀ (desired current : SystemState) (env : DiffEnv) (prune : Bool)
        (plan : List Action),
      SystemState.Validate desired = [] →
      (∀ c ∈ current.configs, isIntrinsicIgnore c.path = false) →
      CalculatePlan desired current env prune = .ok plan →
      ∀ a ∈ plan, ∀ p, actionFilePath a = some p →
        isIntrinsicIgnore p = false) := by
  constructor
  · intro s i c hi hint
    have herr := validateConfigsErrs_intrinsic hi hint
    unfold SystemState.Validate
    simp only [List.mem_append]
    tauto
  · intro desired current env prune plan hv hcur hplan a ha p hp
    unfold CalculatePlan at hplan
    split at hplan
    · rename_i e heq
      have hplan2 : (if (ValidateDependencies desired current).isEmpty = true
          then (Except.error e : Except String (List Action))
          else Except.error ("dependency validation failed:\n  - " ++
            String.intercalate "\n  - " (ValidateDependencies desired current))) =
          Except.ok plan := hplan
      split at hplan2 <;> exact absurd hplan2 (by simp)
    · rename_i userActions hua
      have hplan2 : (if (ValidateDependencies desired current).isEmpty = true
          then Except.ok (calculatePackageActions desired.packages current.packages ++
            calculateServiceActions desired.services current.services ++
            userActions ++
            calculateConfigActions desired current prune ++
            calculateUserPackageActions desired env)
          else Except.error ("dependency validation failed:\n  - " ++
            String.intercalate "\n  - " (ValidateDependencies desired current))) =
          Except.ok plan := hplan
      split at hplan2
      · simp only [Except.ok.injEq] at hplan2
        subst hplan2
        simp only [List.mem_append] at ha
        rcases ha with (((ha | ha) | ha) | ha) | ha
        · rw [packageActions_noFile a ha] at hp
          exact absurd hp (by simp)
        · rw [serviceActions_noFile a ha] at hp
          exact absurd hp (by simp)
        · rw [userActions_noFile hua a ha] at hp
          exact absurd hp (by simp)
        · obtain ⟨q, hq, hsrc⟩ := configActions_filePath a ha
          rw [hq] at hp
          simp only [Option.some.injEq] at hp
          subst hp
          rcases hsrc with ⟨c, hc, hcp⟩ | ⟨c, hc, hcp⟩
          · rw [← hcp]
            exact validate_nil_no_intrinsic hv c hc
          · rw [← hcp]
            exact hcur c hc
        · rw [userPackageActions_noFile a ha] at hp
          exact absurd hp (by simp)
      · exact absurd hplan2 (by simp)

/-- Witness for C2: the first conjunct applied at a desired state with a
single /etc/passwd config, the second at the /etc/apk/arch plan. -/
theorem c2_intrinsic_ignore_validation_witness :
    ((⟨"configs[" ++ toString 0 ++ "].path",
      "cannot manage intrinsically ignored file (security/safety reasons)"⟩ :
      ValidationError) ∈ SystemState.Validate
        ⟨[], [], [], [],
         [⟨"/etc/passwd", "", "", "", "", .managed, false, "", ""⟩],
         [], []⟩) ∧
    (∀ a ∈ [Action.fileCreate "/etc/apk/arch" "x86_64" "" "" ""],
      ∀ p, actionFilePath a = some p → isIntrinsicIgnore p = false) :=
  ⟨c2_intrinsic_ignore_validation.1
      ⟨[], [], [], [],
       [⟨"/etc/passwd", "", "", "", "", .managed, false, "", ""⟩],
       [], []⟩ 0
      ⟨"/etc/passwd", "", "", "", "", .managed, false, "", ""⟩ rfl rfl,
   c2_intrinsic_ignore_validation.2 c2archState c2emptyState c2env false
     [Action.fileCreate "/etc/apk/arch" "x86_64" "" "" ""] rfl
     (by intro c hc; exact absurd hc (List.not_mem_nil c)) rfl⟩


/-! ## C7: primary-group removals never planned -/

/-- Whether an action is a RemoveUserFromGroup. -/
def isRemoveUserFromGroup : Action → Bool
  | .removeUserFromGroup _ _ => true
  | _ => false

theorem alLookup_some_mem {β : Type} {m : List (String × β)} {k : String}
    {v : β} (h : alLookup m k = some v) : (k, v) ∈ m := by
  unfold alLookup at h
  cases hf : m.find? (fun p => p.1 == k) with
  | none =>
    rw [hf] at h
    exact absurd h (by simp)
  | some pr =>
    rw [hf] at h
    simp only [Option.map_some', Option.some.injEq] at h
    have hmem := List.mem_of_find?_eq_some hf
    have hk := List.find?_some hf
    simp only [beq_iff_eq] at hk
    have : (k, v) = pr := by
      rw [← hk, ← h]
    rw [this]
    exact hmem

theorem packageActions_noRemove {d c : List PackageState} :
    ∀ a ∈ calculatePackageActions d c, isRemoveUserFromGroup a = false := by
  intro a ha
  unfold calculatePackageActions at ha
  simp only [List.mem_append, List.mem_flatMap] at ha
  rcases ha with ⟨p, _, hp⟩ | ⟨p, _, hp⟩ <;>
  · have hp2 := mem_ite_nil hp
    simp only [List.mem_singleton] at hp2
    subst hp2
    rfl

theorem serviceActions_noRemove {d c : List ServiceState} :
    ∀ a ∈ calculateServiceActions d c, isRemoveUserFromGroup a = false := by
  intro a ha
  unfold calculateServiceActions at ha
  simp only [List.mem_append, List.mem_flatMap] at ha
  rcases ha with ⟨p, _, hp⟩ | ⟨p, _, hp⟩
  · rcases hcu : alLookup (mapOfBy (fun s => s.name) c) p.1 with _ | cu <;>
      simp only [hcu] at hp
    · have hp2 := mem_ite_nil hp
      simp only [List.mem_singleton] at hp2
      subst hp2
      rfl
    · split at hp
      · simp only [List.mem_singleton] at hp
        subst hp
        rfl
      · split at hp
        · simp only [List.mem_singleton] at hp
          subst hp
          rfl
        · exact absurd hp (List.not_mem_nil a)
  · have hp2 := mem_ite_nil hp
    have hp3 := mem_ite_nil hp2
    simp only [List.mem_singleton] at hp3
    subst hp3
    rfl

theorem userPackageActions_noRemove {d : SystemState} {env : DiffEnv} :
    ∀ a ∈ calculateUserPackageActions d env, isRemoveUserFromGroup a = false := by
  intro a ha
  unfold calculateUserPackageActions at ha
  rw [List.mem_flatMap] at ha
  obtain ⟨up, _, hup⟩ := ha
  have huc : ∀ u m ps, ∀ b ∈ compareUserPackages env u m ps,
      isRemoveUserFromGroup b = false := by
    intro u m ps b hb
    unfold compareUserPackages at hb
    rcases hl : env.listPackages u m with _ | installed <;> simp only [hl] at hb
    · exact absurd hb (List.not_mem_nil b)
    · rcases List.mem_append.mp hb with hb | hb <;>
      · obtain ⟨g, _, hge⟩ := List.mem_map.mp hb
        subst hge
        rfl
  rcases List.mem_append.mp hup with hup | hup <;>
    exact huc _ _ _ a (mem_ite_nil hup)

/-- Where RemoveUserFromGroup actions come from: the user diff looked the
user up in the current-users map and found a record whose primary group
differs from the removed group. -/
theorem userActions_remove_char {d c : List UserState} {env : DiffEnv}
    {l : List Action} {u g : String}
    (h : calculateUserActions d c env = .ok l)
    (hm : Action.removeUserFromGroup u g ∈ l) :
    ∃ cu, alLookup (mapOfBy (fun x => x.name) c) u = some cu ∧
      g ≠ cu.primaryGroup := by
  unfold calculateUserActions at h
  cases hg : inferCurrentSystemGroups env with
  | error e =>
    rw [hg] at h
    exact absurd h (by simp)
  | ok currentSystemGroups =>
    simp only [hg] at h
    simp only [Except.ok.injEq] at h
    subst h
    simp only [List.mem_append] at hm
    rcases hm with (hm | hm) | hm
    · have hcreated : ∀ (gs : List String) (acc : List Action × List String),
          (∀ b ∈ acc.1, isRemoveUserFromGroup b = false) →
          ∀ b ∈ (gs.foldl (fun (acc : List Action × List String) g =>
            if g ∈ acc.2 then acc
            else (acc.1 ++ [Action.groupCreate g], acc.2 ++ [g])) acc).1,
          isRemoveUserFromGroup b = false := by
        intro gs
        induction gs with
        | nil => exact fun acc hacc b hb => hacc b hb
        | cons g0 rest ih =>
          intro acc hacc b hb
          rw [List.foldl_cons] at hb
          refine ih _ ?_ b hb
          intro x hx
          split at hx
          · exact hacc x hx
          · rcases List.mem_append.mp hx with hx | hx
            · exact hacc x hx
            · simp only [List.mem_singleton] at hx
              subst hx
              rfl
      have := hcreated _ _
        (by intro b hb; exact absurd hb (List.not_mem_nil b)) _ hm
      exact absurd this (by simp [isRemoveUserFromGroup])
    · rw [List.mem_flatMap] at hm
      obtain ⟨du, _, hbr⟩ := hm
      rcases hcu : alLookup (mapOfBy (fun x => x.name) c) du.name with _ | cu <;>
        simp only [hcu] at hbr
      · rcases List.mem_cons.mp hbr with hbr | hbr
        · exact absurd hbr (by simp)
        · obtain ⟨g0, _, hge⟩ := List.mem_map.mp hbr
          exact absurd hge (by simp)
      · rcases List.mem_append.mp hbr with hbr | hbr
        · obtain ⟨g0, _, hge⟩ := List.mem_map.mp hbr
          exact absurd hge (by simp)
        · obtain ⟨g0, hg0, hge⟩ := List.mem_map.mp hbr
          simp only [Action.removeUserFromGroup.injEq] at hge
          obtain ⟨hdu, hgg⟩ := hge
          rw [List.mem_filter] at hg0
          have hprop := hg0.2
          simp only [decide_eq_true_eq] at hprop
          refine ⟨cu, ?_, ?_⟩
          · rw [← hdu]
            exact hcu
          · rw [← hgg]
            exact hprop.2
    · rw [List.mem_flatMap] at hm
      obtain ⟨p, _, hp⟩ := hm
      have hp2 := mem_ite_nil hp
      simp only [List.mem_singleton] at hp2
      exact absurd hp2 (by simp)

/-- C7: for every desired and current state (current user names distinct,
as the inferred state's are), runner environment, prune flag, and u, g: a
plan CalculatePlan returns never removes u from the group that is u's
primary group in the current state — the removal filter excludes the
looked-up current record's primary group. -/
theorem c7_no_primary_group_removal
    (desired current : SystemState) (env : DiffEnv) (prune : Bool)
    (plan : List Action) (u g : String)
    (hnodup : (current.users.map (fun cu => cu.name)).Nodup)
    (hplan : CalculatePlan desired current env prune = .ok plan)
    (hmem : Action.removeUserFromGroup u g ∈ plan) :
    ∀ cu ∈ current.users, cu.name = u → cu.primaryGroup ≠ g := by
  unfold CalculatePlan at hplan
  split at hplan
  · rename_i e heq
    have hplan2 : (if (ValidateDependencies desired current).isEmpty = true
        then (Except.error e : Except String (List Action))
        else Except.error ("dependency validation failed:\n  - " ++
          String.intercalate "\n  - " (ValidateDependencies desired current))) =
        Except.ok plan := hplan
    split at hplan2 <;> exact absurd hplan2 (by simp)
  · rename_i userActions hua
    have hplan2 : (if (ValidateDependencies desired current).isEmpty = true
        then Except.ok (calculatePackageActions desired.packages current.packages ++
          calculateServiceActions desired.services current.services ++
          userActions ++
          calculateConfigActions desired current prune ++
          calculateUserPackageActions desired env)
        else Except.error ("dependency validation failed:\n  - " ++
          String.intercalate "\n  - " (ValidateDependencies desired current))) =
        Except.ok plan := hplan
    split at hplan2
    · simp only [Except.ok.injEq] at hplan2
      subst hplan2
      simp only [List.mem_append] at hmem
      rcases hmem with (((hmem | hmem) | hmem) | hmem) | hmem
      · exact absurd (packageActions_noRemove _ hmem) (by simp [isRemoveUserFromGroup])
      · exact absurd (serviceActions_noRemove _ hmem) (by simp [isRemoveUserFromGroup])
      · obtain ⟨cu, hlook, hne⟩ := userActions_remove_char hua hmem
        have hpair := alLookup_some_mem hlook
        have hcu := mem_mapOfBy hpair
        intro cu2 hcu2 hname
        have : cu2 = cu :=
          List.inj_on_of_nodup_map hnodup hcu2 hcu.1 (by rw [hname, hcu.2])
        rw [this]
        exact fun hpg => hne hpg.symm
      · obtain ⟨q, hq, _⟩ := configActions_filePath _ hmem
        exact absurd hq (by simp [actionFilePath])
      · exact absurd (userPackageActions_noRemove _ hmem) (by simp [isRemoveUserFromGroup])
    · exact absurd hplan2 (by simp)


/-- Desired state for the C7 witness: u1 should be in no groups. -/
def c7desired : SystemState := ⟨[], [], [], [⟨"u1", [], "pg"⟩], [], [], []⟩

/-- Current state for the C7 witness: u1 is in extra, primary group pg. -/
def c7current : SystemState := ⟨[], [], [], [⟨"u1", ["extra"], "pg"⟩], [], [], []⟩

/-- Witness for C7: the diff of the two one-user states plans exactly the
removal of u1 from extra, and the theorem instantiated there shows the
removed group is not the current primary group. -/
theorem c7_no_primary_group_removal_witness :
    CalculatePlan c7desired c7current c2env false =
      .ok [Action.removeUserFromGroup "u1" "extra"] ∧
    (⟨"u1", ["extra"], "pg"⟩ : UserState).primaryGroup ≠ "extra" :=
  ⟨rfl,
   c7_no_primary_group_removal c7desired c7current c2env false
     [Action.removeUserFromGroup "u1" "extra"] "u1" "extra"
     (by simp [c7current]) rfl (List.mem_singleton.mpr rfl)
     ⟨"u1", ["extra"], "pg"⟩ (by simp [c7current]) rfl⟩


/-- Witness for C6: a**b**c splits into three parts and matches nothing;
the leading-double-star pattern reduces to the suffix test at /a/foo. -/
theorem c6_doublestar_matching_witness :
    (3 ≤ (goSplit "a**b**c" "**").length ∧
      MatchesGlob "a**b**c" "x" = false) ∧
    MatchesGlob ("**" ++ "/foo") "/a/foo" =
      goHasSuf "/a/foo" (if goHasPre "/foo" "/*" then "/foo".drop 2
        else if goHasPre "/foo" "*" then "/foo".drop 1 else "/foo") :=
  ⟨⟨by decide, c6_doublestar_matching.1 "a**b**c" "x" (by decide)⟩,
   c6_doublestar_matching.2 "/foo" "/a/foo" (by decide)⟩


/-! ## C4: converged states and the empty plan -/

theorem alLookup_mapOfBy_self {β : Type} {key : β → String} {l : List β}
    {v : β} (hnd : (l.map key).Nodup) (hv : v ∈ l) :
    alLookup (mapOfBy key l) (key v) = some v := by
  rw [mapOfBy_lookup]
  cases hf : l.reverse.find? (fun b => key b == key v) with
  | none =>
    have hsome : (l.reverse.find? (fun b => key b == key v)).isSome :=
      List.find?_isSome.mpr ⟨v, by simpa using hv, by simp⟩
    rw [hf] at hsome
    simp at hsome
  | some b =>
    have hb : b ∈ l := by
      have := List.mem_of_find?_eq_some hf
      simpa using this
    have hkey := List.find?_some hf
    simp only [beq_iff_eq] at hkey
    rw [List.inj_on_of_nodup_map hnd hb hv hkey]

theorem packageActions_self (ps : List PackageState) :
    calculatePackageActions ps ps = [] := by
  unfold calculatePackageActions
  refine List.append_eq_nil.mpr ⟨?_, ?_⟩ <;>
  · refine List.bind_eq_nil.mpr ?_
    intro p hp
    obtain ⟨k, v⟩ := p
    have hsome := alLookup_isSome_of_mem hp
    cases halk : alLookup (mapOfBy (fun p => p.name) ps) k with
    | none => rw [halk] at hsome; simp at hsome
    | some w => simp [halk]

theorem serviceActions_self (ss : List ServiceState) :
    calculateServiceActions ss ss = [] := by
  unfold calculateServiceActions
  refine List.append_eq_nil.mpr ⟨?_, ?_⟩
  · refine List.bind_eq_nil.mpr ?_
    intro p hp
    obtain ⟨k, v⟩ := p
    have halk := alLookup_of_mem_nodup (keysNodup_mapOfBy (fun s => s.name) ss) hp
    simp only [halk]
    rw [if_neg (by tauto), if_neg (by tauto)]
  · refine List.bind_eq_nil.mpr ?_
    intro p hp
    obtain ⟨k, v⟩ := p
    have hsome := alLookup_isSome_of_mem hp
    cases halk : alLookup (mapOfBy (fun s => s.name) ss) k with
    | none => rw [halk] at hsome; simp at hsome
    | some w => simp [halk]

theorem userActions_self {us : List UserState} {env : DiffEnv} {gout : String}
    (hnd : (us.map (fun u => u.name)).Nodup)
    (hgf : env.groupFile = .ok gout)
    (hgroups : ∀ u ∈ us, ∀ g ∈ u.groups, g ∈ parseGroupNames gout) :
    calculateUserActions us us env = .ok [] := by
  obtain ⟨gf, lp⟩ := env
  simp only at hgf
  subst hgf
  have hA : ((setOfList (us.flatMap (fun u => u.groups))).foldl
      (fun (acc : List Action × List String) g =>
        if g ∈ acc.2 then acc
        else (acc.1 ++ [Action.groupCreate g], acc.2 ++ [g]))
      ([], parseGroupNames gout)).1 = [] := by
    have hsub : ∀ g ∈ setOfList (us.flatMap (fun u => u.groups)),
        g ∈ parseGroupNames gout := by
      intro g hg
      rw [mem_setOfList] at hg
      obtain ⟨u, hu, hgu⟩ := List.mem_flatMap.mp hg
      exact hgroups u hu g hgu
    revert hsub
    generalize setOfList (us.flatMap (fun u => u.groups)) = gs
    have haux : ∀ (gs : List String) (acc : List Action × List String),
        (∀ g ∈ gs, g ∈ acc.2) → acc.1 = [] →
        (gs.foldl (fun (acc : List Action × List String) g =>
          if g ∈ acc.2 then acc
          else (acc.1 ++ [Action.groupCreate g], acc.2 ++ [g])) acc).1 = [] := by
      intro gs
      induction gs with
      | nil => exact fun acc _ h => h
      | cons g rest ih =>
        intro acc hmem hnil
        rw [List.foldl_cons]
        rw [if_pos (hmem g (List.mem_cons_self g rest))]
        exact ih acc (fun x hx => hmem x (List.mem_cons_of_mem g hx)) hnil
    exact fun hsub => haux gs ([], parseGroupNames gout) hsub rfl
  have hB : us.flatMap (fun du =>
      match alLookup (mapOfBy (fun u => u.name) us) du.name with
      | none =>
        Action.userCreate du.name ::
          du.groups.map (fun g => Action.addUserToGroup du.name g)
      | some cu =>
        ((setOfList du.groups).filter
          (fun g => g ∉ setOfList cu.groups)).map
          (fun g => Action.addUserToGroup du.name g) ++
        ((setOfList cu.groups).filter
          (fun g => g ∉ setOfList du.groups ∧ g ≠ cu.primaryGroup)).map
          (fun g => Action.removeUserFromGroup du.name g)) = [] := by
    refine List.bind_eq_nil.mpr ?_
    intro du hdu
    simp only [alLookup_mapOfBy_self hnd hdu]
    have hf1 : (setOfList du.groups).filter
        (fun g => g ∉ setOfList du.groups) = [] := by
      refine List.filter_eq_nil_iff.mpr ?_
      intro g hg
      simp only [decide_eq_true_eq]
      exact fun habs => habs hg
    have hf2 : (setOfList du.groups).filter
        (fun g => g ∉ setOfList du.groups ∧ g ≠ du.primaryGroup) = [] := by
      refine List.filter_eq_nil_iff.mpr ?_
      intro g hg
      simp only [decide_eq_true_eq]
      exact fun habs => habs.1 hg
    rw [hf1, hf2]
    simp
  have hC : (mapOfBy (fun u => u.name) us).flatMap (fun p =>
      if (alLookup (mapOfBy (fun u => u.name) us) p.1).isNone then
        [Action.userRemove p.1] else []) = [] := by
    refine List.bind_eq_nil.mpr ?_
    intro p hp
    obtain ⟨k, v⟩ := p
    have hsome := alLookup_isSome_of_mem hp
    cases halk : alLookup (mapOfBy (fun u => u.name) us) k with
    | none => rw [halk] at hsome; simp at hsome
    | some w => simp [halk]
  have hx : ((setOfList (us.flatMap (fun u => u.groups))).foldl
      (fun (acc : List Action × List String) g =>
        if g ∈ acc.2 then acc
        else (acc.1 ++ [Action.groupCreate g], acc.2 ++ [g]))
      ([], parseGroupNames gout)).1 ++
      us.flatMap (fun du =>
        match alLookup (mapOfBy (fun u => u.name) us) du.name with
        | none =>
          Action.userCreate du.name ::
            du.groups.map (fun g => Action.addUserToGroup du.name g)
        | some cu =>
          ((setOfList du.groups).filter
            (fun g => g ∉ setOfList cu.groups)).map
            (fun g => Action.addUserToGroup du.name g) ++
          ((setOfList cu.groups).filter
            (fun g => g ∉ setOfList du.groups ∧ g ≠ cu.primaryGroup)).map
            (fun g => Action.removeUserFromGroup du.name g)) ++
      (mapOfBy (fun u => u.name) us).flatMap (fun p =>
        if (alLookup (mapOfBy (fun u => u.name) us) p.1).isNone then
          [Action.userRemove p.1] else []) = [] := by
    rw [hA, hB, hC]
    rfl
  exact congrArg Except.ok hx

theorem configActions_self (s : SystemState) (prune : Bool) :
    calculateConfigActions s s prune = [] := by
  unfold calculateConfigActions
  refine List.append_eq_nil.mpr ⟨?_, ?_⟩
  · refine List.bind_eq_nil.mpr ?_
    intro p hp
    obtain ⟨k, v⟩ := p
    have halk := alLookup_of_mem_nodup
      (keysNodup_mapOfBy (fun c => c.path)
        (s.configs.filter (fun c =>
          ¬ calcIsIgnored s.ignoredConfigs c.path))) hp
    simp only [halk]
    rw [if_neg (by tauto), if_neg (by tauto), if_neg (by tauto)]
    rfl
  · refine List.bind_eq_nil.mpr ?_
    intro p hp
    obtain ⟨k, v⟩ := p
    have hsome := alLookup_isSome_of_mem hp
    cases halk : alLookup (mapOfBy (fun c => c.path)
        (s.configs.filter (fun c =>
          ¬ calcIsIgnored s.ignoredConfigs c.path))) k with
    | none => rw [halk] at hsome; simp at hsome
    | some w => simp [halk]

theorem userPackageActions_self {s : SystemState} {env : DiffEnv}
    (hlist : ∀ up ∈ s.userPackages,
      (up.pipx.length > 0 → ∃ ls, env.listPackages up.user "pipx" = some ls ∧
        ∀ x, x ∈ ls ↔ x ∈ up.pipx) ∧
      (up.npm.length > 0 → ∃ ls, env.listPackages up.user "npm" = some ls ∧
        ∀ x, x ∈ ls ↔ x ∈ up.npm)) :
    calculateUserPackageActions s env = [] := by
  unfold calculateUserPackageActions
  refine List.bind_eq_nil.mpr ?_
  intro up hup
  refine List.append_eq_nil.mpr ⟨?_, ?_⟩
  · split
    · rename_i hlen
      obtain ⟨ls, hls, hiff⟩ := (hlist up hup).1 hlen
      unfold compareUserPackages
      rw [hls]
      refine List.append_eq_nil.mpr ⟨?_, ?_⟩ <;>
        refine (List.map_eq_nil).mpr (List.filter_eq_nil_iff.mpr ?_) <;>
      · intro pkg hpkg
        rw [mem_setOfList] at hpkg
        simp only [decide_eq_true_eq]
        intro habs
        rw [mem_setOfList] at habs
        first
        | exact habs ((hiff pkg).mpr hpkg)
        | exact habs ((hiff pkg).mp hpkg)
    · rfl
  · split
    · rename_i hlen
      obtain ⟨ls, hls, hiff⟩ := (hlist up hup).2 hlen
      unfold compareUserPackages
      rw [hls]
      refine List.append_eq_nil.mpr ⟨?_, ?_⟩ <;>
        refine (List.map_eq_nil).mpr (List.filter_eq_nil_iff.mpr ?_) <;>
      · intro pkg hpkg
        rw [mem_setOfList] at hpkg
        simp only [decide_eq_true_eq]
        intro habs
        rw [mem_setOfList] at habs
        first
        | exact habs ((hiff pkg).mpr hpkg)
        | exact habs ((hiff pkg).mp hpkg)
    · rfl

/-- C4 (amended): CalculatePlan of a state against itself is the empty
plan, provided the state's user names are distinct (as an inferred
state's are), its dependency validation passes (unlike the original
claim, equal states CAN fail it — see the counterexample), every group a
user references appears in the runner's /etc/group output, and each
consulted per-user listing reports exactly (as a set) the desired
packages. -/
theorem c4_converged_empty_plan (s : SystemState) (env : DiffEnv)
    (prune : Bool) (gout : String)
    (hnd : (s.users.map (fun u => u.name)).Nodup)
    (hdep : ValidateDependencies s s = [])
    (hgf : env.groupFile = .ok gout)
    (hgroups : ∀ u ∈ s.users, ∀ g ∈ u.groups, g ∈ parseGroupNames gout)
    (hlist : ∀ up ∈ s.userPackages,
      (up.pipx.length > 0 → ∃ ls, env.listPackages up.user "pipx" = some ls ∧
        ∀ x, x ∈ ls ↔ x ∈ up.pipx) ∧
      (up.npm.length > 0 → ∃ ls, env.listPackages up.user "npm" = some ls ∧
        ∀ x, x ∈ ls ↔ x ∈ up.npm)) :
    CalculatePlan s s env prune = .ok [] := by
  have hua := userActions_self hnd hgf hgroups
  have hgoal : (if (ValidateDependencies s s).isEmpty = true
      then match calculateUserActions s.users s.users env with
        | .error e => (Except.error e : Except String (List Action))
        | .ok userActions =>
          Except.ok (calculatePackageActions s.packages s.packages ++
            calculateServiceActions s.services s.services ++ userActions ++
            calculateConfigActions s s prune ++
            calculateUserPackageActions s env)
      else Except.error ("dependency validation failed:\n  - " ++
        String.intercalate "\n  - " (ValidateDependencies s s))) =
      Except.ok ([] : List Action) := by
    rw [hdep, hua]
    rw [if_pos (show ([] : List String).isEmpty = true from rfl)]
    rw [packageActions_self, serviceActions_self, configActions_self,
      userPackageActions_self hlist]
    rfl
  exact hgoal

/-- The C4 counterexample state: desired equals current, one user u with
one pipx package, pipx itself not installed. -/
def c4state : SystemState :=
  ⟨[], [], [], [⟨"u", [], ""⟩], [], [], [⟨"u", ["black"], []⟩]⟩

/-- Runner for the C4 counterexample: the per-user listing reports exactly
the desired package set. -/
def c4env : DiffEnv :=
  ⟨.ok "", fun u m => if u = "u" ∧ m = "pipx" then some ["black"] else none⟩

/-- C4 counterexample to the original claim: a state diffed against
itself, whose single per-user listing reports exactly the desired set and
which references no groups, still yields an error (not an empty plan) —
dependency validation rejects user packages when pipx is not itself a
system package. -/
theorem c4_converged_error_counterexample :
    CalculatePlan c4state c4state c4env false =
      .error ("dependency validation failed:\n  - user packages require " ++
        "\x27pipx\x27 to be installed for packages: black. " ++
        "Add \x27pipx\x27 to the system packages list.") := by
  rfl

/-- The converged state for the C4 witness. -/
def c4wstate : SystemState :=
  ⟨[], [⟨"pipx"⟩], [], [⟨"u1", ["wheel"], ""⟩],
   [⟨"/etc/motd", "hi", "", "", "", .managed, false, "", ""⟩], [],
   [⟨"u1", ["black"], []⟩]⟩

/-- The runner for the C4 witness. -/
def c4wenv : DiffEnv :=
  ⟨.ok "wheel:x:10:\nu1:x:1000:",
   fun u m => if u = "u1" ∧ m = "pipx" then some ["black"] else none⟩

/-- Witness for C4: the amended theorem applied to a concrete converged
state (pipx installed, one user in one existing group, one config, one
user package whose listing matches). -/
theorem c4_converged_empty_plan_witness :
    CalculatePlan c4wstate c4wstate c4wenv false = .ok [] :=
  c4_converged_empty_plan c4wstate c4wenv false "wheel:x:10:\nu1:x:1000:"
    (by simp [c4wstate])
    rfl
    rfl
    (by decide)
    (by
      intro up hup
      simp only [c4wstate, List.mem_singleton] at hup
      subst hup
      refine ⟨fun _ => ⟨["black"], rfl, by intro x; simp⟩, fun h => absurd h (by simp)⟩)

end Summit
